import Mathlib

/-!
Formal model of the Angel One SmartAPI polling scaffold (`main.py`).

The development shallowly embeds the data model and the operations of the
script: Python values as an inductive type, the JSON serialisation used by
the snapshot store, the SQLite snapshot log as a list of rows with an
auto-increment counter, the method-probing broker adapter, the price
extraction step with its regex fallback, the mock payload generator, the
message composition, the one-shot cycle orchestrator, the CLI entry point
and the loop scheduler arithmetic.

Environment-dependent quantities (wall-clock readings, the salted Python
string hash, the float literal produced for the mock price) are threaded
through an explicit environment record.
-/

set_option maxRecDepth 10000

/-- Python values as they occur in this program. Floats never take part in
arithmetic here, so a float is represented by the decimal literal that
denotes it (the shortest repr round-trip form that `json.dumps` prints).
A dict is an insertion-ordered association list with string keys, which is
exactly how the script uses dicts. -/
inductive PyVal where
  | pyNone : PyVal
  | pyBool (b : Bool) : PyVal
  | pyInt (n : Int) : PyVal
  | pyFloat (lit : String) : PyVal
  | pyStr (s : String) : PyVal
  | pyList (xs : List PyVal) : PyVal
  | pyTuple (xs : List PyVal) : PyVal
  | pyDict (es : List (String × PyVal)) : PyVal

namespace PyVal

mutual

/-- Structural equality test on Python values. -/
def beq : PyVal → PyVal → Bool
  | pyNone, pyNone => true
  | pyBool a, pyBool b => a == b
  | pyInt a, pyInt b => a == b
  | pyFloat a, pyFloat b => a == b
  | pyStr a, pyStr b => a == b
  | pyList xs, pyList ys => beqList xs ys
  | pyTuple xs, pyTuple ys => beqList xs ys
  | pyDict es, pyDict fs => beqEntries es fs
  | _, _ => false

/-- Structural equality test on lists of Python values. -/
def beqList : List PyVal → List PyVal → Bool
  | [], [] => true
  | x :: xs, y :: ys => beq x y && beqList xs ys
  | _, _ => false

/-- Structural equality test on dict entry lists. -/
def beqEntries : List (String × PyVal) → List (String × PyVal) → Bool
  | [], [] => true
  | (k, v) :: es, (l, w) :: fs => k == l && beq v w && beqEntries es fs
  | _, _ => false

end

mutual

theorem beq_refl : ∀ a : PyVal, beq a a = true
  | pyNone => rfl
  | pyBool a => by simp [beq]
  | pyInt a => by simp [beq]
  | pyFloat a => by simp [beq]
  | pyStr a => by simp [beq]
  | pyList xs => by simp [beq, beqList_refl xs]
  | pyTuple xs => by simp [beq, beqList_refl xs]
  | pyDict es => by simp [beq, beqEntries_refl es]

theorem beqList_refl : ∀ xs : List PyVal, beqList xs xs = true
  | [] => rfl
  | x :: xs => by simp [beqList, beq_refl x, beqList_refl xs]

theorem beqEntries_refl : ∀ es : List (String × PyVal), beqEntries es es = true
  | [] => rfl
  | (k, v) :: es => by simp [beqEntries, beq_refl v, beqEntries_refl es]

end

mutual

theorem beq_sound : ∀ a b : PyVal, beq a b = true → a = b
  | pyNone, b, h => by cases b <;> simp_all [beq]
  | pyBool a, b, h => by cases b <;> simp_all [beq]
  | pyInt a, b, h => by cases b <;> simp_all [beq]
  | pyFloat a, b, h => by cases b <;> simp_all [beq]
  | pyStr a, b, h => by cases b <;> simp_all [beq]
  | pyList xs, b, h => by
      cases b <;> simp_all [beq]
      case pyList ys => exact beqList_sound xs ys h
  | pyTuple xs, b, h => by
      cases b <;> simp_all [beq]
      case pyTuple ys => exact beqList_sound xs ys h
  | pyDict es, b, h => by
      cases b <;> simp_all [beq]
      case pyDict fs => exact beqEntries_sound es fs h

theorem beqList_sound : ∀ xs ys : List PyVal, beqList xs ys = true → xs = ys
  | [], [], _ => rfl
  | [], _ :: _, h => by simp_all [beqList]
  | _ :: _, [], h => by simp_all [beqList]
  | x :: xs, y :: ys, h => by
      simp only [beqList, Bool.and_eq_true] at h
      rw [beq_sound x y h.1, beqList_sound xs ys h.2]

theorem beqEntries_sound :
    ∀ es fs : List (String × PyVal), beqEntries es fs = true → es = fs
  | [], [], _ => rfl
  | [], _ :: _, h => by simp_all [beqEntries]
  | _ :: _, [], h => by simp_all [beqEntries]
  | (k, v) :: es, (l, w) :: fs, h => by
      simp only [beqEntries, Bool.and_eq_true, beq_iff_eq] at h
      rw [h.1.1, beq_sound v w h.1.2, beqEntries_sound es fs h.2]

end

instance : DecidableEq PyVal := fun a b =>
  if h : beq a b = true then isTrue (beq_sound a b h)
  else isFalse (fun he => h (he ▸ beq_refl a))

/-- Lookup in a Python dict (first, hence unique, binding of the key). -/
def lookup (es : List (String × PyVal)) (k : String) : Option PyVal :=
  match es with
  | [] => none
  | (k', v) :: rest => if k' = k then some v else lookup rest k

/-- Python `d[k] = v`: replace the binding in place when the key exists,
append a new binding otherwise. -/
def dictSet (es : List (String × PyVal)) (k : String) (v : PyVal) :
    List (String × PyVal) :=
  match es with
  | [] => [(k, v)]
  | (k', v') :: rest =>
    if k' = k then (k', v) :: rest else (k', v') :: dictSet rest k v

/-- Python truthiness of the values this program tests. A float literal is
falsy exactly when it denotes zero, that is when it consists of sign,
zeros and a dot only. -/
def pyTruthy : PyVal → Bool
  | .pyNone => false
  | .pyBool b => b
  | .pyInt n => n != 0
  | .pyFloat lit => !(lit.data.all fun c => c = '0' || c = '.' || c = '-')
  | .pyStr s => s != ""
  | .pyList xs => !xs.isEmpty
  | .pyTuple xs => !xs.isEmpty
  | .pyDict es => !es.isEmpty

end PyVal

/-! ## Decimal digits -/

/-- Character for a decimal digit. -/
def digitCh : Nat → Char
  | 0 => '0' | 1 => '1' | 2 => '2' | 3 => '3' | 4 => '4'
  | 5 => '5' | 6 => '6' | 7 => '7' | 8 => '8' | 9 => '9'
  | _ => '*'

/-- Decimal digit test, stated over code points so that `omega` can reason
about it. -/
def isDigitC (c : Char) : Bool := 48 ≤ c.toNat && c.toNat ≤ 57

/-- Decimal rendering of a natural number, as Python `repr` prints it. -/
def natToChars (n : Nat) : List Char :=
  if n < 10 then [digitCh n]
  else natToChars (n / 10) ++ [digitCh (n % 10)]
decreasing_by exact Nat.div_lt_self (by omega) (by omega)

/-- Value of a decimal digit string. -/
def digitsVal (cs : List Char) : Nat :=
  cs.foldl (fun a c => a * 10 + (c.toNat - 48)) 0

/-- Decimal rendering of an integer, as Python `repr` prints it. -/
def intChars (n : Int) : List Char :=
  if n < 0 then '-' :: natToChars n.natAbs else natToChars n.natAbs

theorem digitCh_toNat {d : Nat} (h : d < 10) : (digitCh d).toNat = 48 + d := by
  interval_cases d <;> rfl

theorem isDigitC_digitCh {d : Nat} (h : d < 10) : isDigitC (digitCh d) = true := by
  interval_cases d <;> rfl

theorem digitsVal_append_one (cs : List Char) (c : Char) :
    digitsVal (cs ++ [c]) = digitsVal cs * 10 + (c.toNat - 48) := by
  simp [digitsVal, List.foldl_append]

theorem digitsVal_natToChars (n : Nat) : digitsVal (natToChars n) = n := by
  induction n using Nat.strong_induction_on with
  | _ n ih =>
    rw [natToChars]
    by_cases h : n < 10
    · simp only [if_pos h, digitsVal, List.foldl_cons, List.foldl_nil]
      rw [digitCh_toNat h]
      omega
    · rw [if_neg h, digitsVal_append_one,
        ih (n / 10) (Nat.div_lt_self (by omega) (by omega)),
        digitCh_toNat (Nat.mod_lt _ (by omega))]
      omega

theorem natToChars_all_digits (n : Nat) :
    ∀ c ∈ natToChars n, isDigitC c = true := by
  induction n using Nat.strong_induction_on with
  | _ n ih =>
    rw [natToChars]
    by_cases h : n < 10
    · simp only [if_pos h, List.mem_singleton]
      rintro c rfl
      exact isDigitC_digitCh h
    · rw [if_neg h]
      intro c hc
      rcases List.mem_append.mp hc with hc | hc
      · exact ih (n / 10) (Nat.div_lt_self (by omega) (by omega)) c hc
      · rcases List.mem_singleton.mp hc with rfl
        exact isDigitC_digitCh (Nat.mod_lt _ (by omega))

theorem natToChars_ne_nil (n : Nat) : natToChars n ≠ [] := by
  rw [natToChars]
  by_cases h : n < 10 <;> simp [h]

/-! ## JSON string escaping, as Python json.dumps with ensure_ascii=False -/

/-- Lower-case hexadecimal digit character. -/
def hexCh : Nat → Char
  | 0 => '0' | 1 => '1' | 2 => '2' | 3 => '3' | 4 => '4'
  | 5 => '5' | 6 => '6' | 7 => '7' | 8 => '8' | 9 => '9'
  | 10 => 'a' | 11 => 'b' | 12 => 'c' | 13 => 'd' | 14 => 'e' | 15 => 'f'
  | _ => '*'

/-- Value of a hexadecimal digit character. -/
def hexVal (c : Char) : Nat :=
  if c.toNat ≤ 57 then c.toNat - 48 else c.toNat - 87

/-- Escaping of one character inside a JSON string: quote, backslash and the
named control characters get two-character escapes, the remaining control
characters get a lower-case unicode escape, everything else passes through
unchanged (ensure_ascii is off). -/
def escChar (c : Char) : List Char :=
  if c = '"' then ['\\', '"']
  else if c = '\\' then ['\\', '\\']
  else if c.toNat = 8 then ['\\', 'b']
  else if c.toNat = 9 then ['\\', 't']
  else if c.toNat = 10 then ['\\', 'n']
  else if c.toNat = 12 then ['\\', 'f']
  else if c.toNat = 13 then ['\\', 'r']
  else if c.toNat < 32 then
    ['\\', 'u', '0', '0', hexCh (c.toNat / 16), hexCh (c.toNat % 16)]
  else [c]

/-- Escaping of a whole string body. -/
def escStr (cs : List Char) : List Char :=
  cs.foldr (fun c acc => escChar c ++ acc) []

/-! ## json.dumps -/

mutual

/-- Serialisation of a Python value in the format of `json.dumps` with its
default separators: tuples print as arrays, floats print their literal. -/
def dumpV : PyVal → List Char
  | .pyNone => ['n', 'u', 'l', 'l']
  | .pyBool true => ['t', 'r', 'u', 'e']
  | .pyBool false => ['f', 'a', 'l', 's', 'e']
  | .pyInt n => intChars n
  | .pyFloat lit => lit.data
  | .pyStr s => '"' :: escStr s.data ++ ['"']
  | .pyList xs => '[' :: dumpItems xs
  | .pyTuple xs => '[' :: dumpItems xs
  | .pyDict es => '{' :: dumpEntries es

/-- Serialisation of array elements, including the closing bracket. -/
def dumpItems : List PyVal → List Char
  | [] => [']']
  | [v] => dumpV v ++ [']']
  | v :: w :: vs => dumpV v ++ ',' :: ' ' :: dumpItems (w :: vs)

/-- Serialisation of object entries, including the closing brace. -/
def dumpEntries : List (String × PyVal) → List Char
  | [] => ['}']
  | [(k, v)] => '"' :: escStr k.data ++ '"' :: ':' :: ' ' :: dumpV v ++ ['}']
  | (k, v) :: e :: es =>
    '"' :: escStr k.data ++ '"' :: ':' :: ' ' :: dumpV v ++
      ',' :: ' ' :: dumpEntries (e :: es)

end

/-- The `json.dumps` model at the string level. -/
def jsonDumps (v : PyVal) : String := String.mk (dumpV v)

/-- The `truncate` helper of main.py: serialise and clip long output. -/
def truncate (v : PyVal) (len : Nat) : String :=
  let s := jsonDumps v
  if len < s.data.length then String.mk (s.data.take len) ++ "...(truncated)"
  else s

/-! ## Python str() as used by the f-strings of the script -/

/-- Single quote character, used by Python repr of strings. -/
def squote : Char := Char.ofNat 39

mutual

/-- Python `repr` of a value, in the simplified form this development needs:
string contents are not re-escaped, which is faithful for every string the
script ever formats. -/
def pyRepr : PyVal → String
  | .pyNone => "None"
  | .pyBool true => "True"
  | .pyBool false => "False"
  | .pyInt n => String.mk (intChars n)
  | .pyFloat lit => lit
  | .pyStr s => String.singleton squote ++ s ++ String.singleton squote
  | .pyList xs => "[" ++ pyReprItems xs ++ "]"
  | .pyTuple [v] => "(" ++ pyRepr v ++ ",)"
  | .pyTuple xs => "(" ++ pyReprItems xs ++ ")"
  | .pyDict es => String.singleton '\x7b' ++ pyReprEntries es ++ String.singleton '\x7d'

/-- Comma-separated reprs of container elements. -/
def pyReprItems : List PyVal → String
  | [] => ""
  | [v] => pyRepr v
  | v :: w :: vs => pyRepr v ++ ", " ++ pyReprItems (w :: vs)

/-- Comma-separated reprs of dict entries. -/
def pyReprEntries : List (String × PyVal) → String
  | [] => ""
  | [(k, v)] => String.singleton squote ++ k ++ String.singleton squote ++ ": " ++ pyRepr v
  | (k, v) :: e :: es =>
    String.singleton squote ++ k ++ String.singleton squote ++ ": " ++ pyRepr v ++ ", " ++
      pyReprEntries (e :: es)

end

/-- Python `str()` of a value, as interpolated by the f-strings of main.py:
`str` of a string is the string itself, containers fall back to repr. -/
def pyToStr : PyVal → String
  | .pyNone => "None"
  | .pyBool true => "True"
  | .pyBool false => "False"
  | .pyInt n => String.mk (intChars n)
  | .pyFloat lit => lit
  | .pyStr s => s
  | v => pyRepr v

/-! ## UTC timestamps: datetime.now(timezone.utc).isoformat() -/

/-- A UTC datetime as produced by `datetime.now(timezone.utc)`. -/
structure UtcTime where
  year : Nat
  month : Nat
  day : Nat
  hour : Nat
  minute : Nat
  second : Nat
  microsecond : Nat
deriving DecidableEq, Repr

/-- Gregorian leap year test. -/
def isLeap (y : Nat) : Bool := y % 4 = 0 && (y % 100 != 0 || y % 400 = 0)

/-- Number of days in a month. -/
def daysInMonth (y m : Nat) : Nat :=
  if m = 2 then (if isLeap y then 29 else 28)
  else if m = 4 || m = 6 || m = 9 || m = 11 then 30
  else 31

/-- Field ranges a real `datetime` value satisfies. -/
def UtcTime.validB (t : UtcTime) : Bool :=
  1 ≤ t.year && t.year ≤ 9999 && 1 ≤ t.month && t.month ≤ 12 &&
  1 ≤ t.day && t.day ≤ daysInMonth t.year t.month &&
  t.hour < 24 && t.minute < 60 && t.second < 60 && t.microsecond < 1000000

/-- Two-digit zero-padded decimal rendering. -/
def pad2 (n : Nat) : List Char := [digitCh (n / 10), digitCh (n % 10)]

/-- Four-digit zero-padded decimal rendering. -/
def pad4 (n : Nat) : List Char := pad2 (n / 100) ++ pad2 (n % 100)

/-- Six-digit zero-padded decimal rendering. -/
def pad6 (n : Nat) : List Char :=
  pad2 (n / 10000) ++ pad2 (n / 100 % 100) ++ pad2 (n % 100)

/-- The `isoformat()` rendering of an aware UTC datetime: the fraction is
omitted when the microsecond field is zero, and the offset is +00:00. -/
def isoformat (t : UtcTime) : String :=
  String.mk (pad4 t.year ++ '-' :: pad2 t.month ++ '-' :: pad2 t.day ++
    'T' :: pad2 t.hour ++ ':' :: pad2 t.minute ++ ':' :: pad2 t.second ++
    (if t.microsecond = 0 then [] else '.' :: pad6 t.microsecond) ++
    ['+', '0', '0', ':', '0', '0'])

/-- Numeric value of two digit characters. -/
def num2 (a b : Char) : Nat := (a.toNat - 48) * 10 + (b.toNat - 48)

/-- Acceptable tails of an ISO timestamp after the seconds field: the UTC
offset, optionally preceded by a six-digit fraction. -/
def isoTailB : List Char → Bool
  | ['+', '0', '0', ':', '0', '0'] => true
  | '.' :: f1 :: f2 :: f3 :: f4 :: f5 :: f6 ::
      '+' :: '0' :: '0' :: ':' :: '0' :: '0' :: [] =>
    [f1, f2, f3, f4, f5, f6].all isDigitC
  | _ => false

/-- Recogniser for the ISO-8601 timestamps `datetime.fromisoformat` accepts
in the shape this program writes, with the field range checks the parser
performs. -/
def isoParseB (s : String) : Bool :=
  match s.data with
  | y1 :: y2 :: y3 :: y4 :: '-' :: m1 :: m2 :: '-' :: d1 :: d2 :: 'T' ::
      h1 :: h2 :: ':' :: n1 :: n2 :: ':' :: s1 :: s2 :: rest =>
    ([y1, y2, y3, y4, m1, m2, d1, d2, h1, h2, n1, n2, s1, s2].all isDigitC) &&
    (let Y := num2 y1 y2 * 100 + num2 y3 y4
     let M := num2 m1 m2
     let D := num2 d1 d2
     1 ≤ Y && 1 ≤ M && M ≤ 12 && 1 ≤ D && D ≤ daysInMonth Y M &&
     num2 h1 h2 < 24 && num2 n1 n2 < 60 && num2 s1 s2 < 60) &&
    isoTailB rest
  | _ => false

theorem daysInMonth_le (y m : Nat) : daysInMonth y m ≤ 31 := by
  unfold daysInMonth
  split_ifs <;> omega

theorem num2_pad2 {n : Nat} (h : n < 100) :
    num2 (digitCh (n / 10)) (digitCh (n % 10)) = n := by
  unfold num2
  rw [digitCh_toNat (by omega), digitCh_toNat (by omega)]
  omega

/-- Every timestamp the script stores parses back as ISO-8601. -/
theorem isoParseB_isoformat (t : UtcTime) (h : t.validB = true) :
    isoParseB (isoformat t) = true := by
  simp only [UtcTime.validB, Bool.and_eq_true, decide_eq_true_eq] at h
  obtain ⟨⟨⟨⟨⟨⟨⟨⟨⟨hy1, hy2⟩, hm1⟩, hm2⟩, hd1⟩, hd2⟩, hh⟩, hn⟩, hs⟩, hu⟩ := h
  by_cases hz : t.microsecond = 0 <;>
    [skip; skip] <;>
  · unfold isoformat isoParseB pad4 pad6
    simp only [hz, if_pos, if_neg, ite_true, ite_false, reduceIte,
      pad2, List.cons_append, List.nil_append, List.append_assoc]
    simp only [List.all_cons, List.all_nil, Bool.and_eq_true, decide_eq_true_eq,
      isoTailB]
    have hdm := daysInMonth_le t.year t.month
    rw [num2_pad2 (by omega), num2_pad2 (by omega), num2_pad2 (by omega),
      num2_pad2 (by omega), num2_pad2 (by omega), num2_pad2 (by omega),
      num2_pad2 (by omega)]
    rw [show t.year / 100 * 100 + t.year % 100 = t.year by omega]
    repeat' apply And.intro
    all_goals first
      | exact isDigitC_digitCh (by omega)
      | omega
      | trivial

/-! ## Broker client adapter -/

/-- An opaque broker client object: the set of callable attribute names it
exposes, and the behaviour of calling one of them (a value, or a raised
exception message). -/
structure Api where
  methods : List String
  call : String → List PyVal → Except String PyVal

/-- hasattr on the client object. -/
def Api.hasMethod (a : Api) (m : String) : Bool := a.methods.contains m

/-- safe_call_and_log: calls the function and returns its result, or an
error dict under the stable key "error" when the call raises. The logging
side effects are dropped by the model. -/
def safe_call_and_log : Except String PyVal → PyVal
  | .ok v => v
  | .error e => .pyDict [("error", .pyStr e)]

/-- Candidate LTP method names probed by fetch_ltp_by_method. -/
def ltpCandidates : List String :=
  ["ltp", "get_ltp", "getLTP", "ltpData", "getLTPData", "getLtp", "getLTPFeed"]

/-- Quote-style method names probed by the second loop of
fetch_ltp_by_method. -/
def quoteCandidates : List String :=
  ["get_quote", "get_quote_data", "quote", "getQuote", "quoteFeed"]

/-- Option-chain method names probed by fetch_option_chain_probes. -/
def ocProbes : List String :=
  ["option_chain", "get_option_chain", "getOptionChain", "get_opt_chain",
   "get_option_chain_for_symbol"]

/-- Instrument-master method names probed (with no argument) by
fetch_option_chain_probes. -/
def instProbes : List String :=
  ["instruments", "instrument_master", "getInstrumentMaster",
   "get_instruments", "getInstruments"]

/-- One probing loop: walk the candidate list in order and, for every name
the object exposes, call it through the safe-call wrapper and record the
result under the method name. -/
def probeAll (api : Api) (args : List PyVal) : List String → List (String × PyVal)
  | [] => []
  | m :: ms =>
    if api.hasMethod m then
      (m, safe_call_and_log (api.call m args)) :: probeAll api args ms
    else probeAll api args ms

/-- fetch_ltp_by_method: two probing loops over the LTP candidates and the
quote-style candidates, accumulating a results dict. -/
def fetch_ltp_by_method (api : Api) (sym : String) : List (String × PyVal) :=
  probeAll api [.pyStr sym] ltpCandidates ++ probeAll api [.pyStr sym] quoteCandidates

/-- fetch_option_chain_probes: probes the option-chain candidates with the
symbol and the instrument-master candidates with no argument. -/
def fetch_option_chain_probes (api : Api) (sym : String) : List (String × PyVal) :=
  probeAll api [.pyStr sym] ocProbes ++ probeAll api [] instProbes

/-! ## The naive regex fallback

The source searches the truncated serialisation with a raw-string pattern
in which every backslash is doubled. A doubled backslash inside a raw
string is an escaped literal backslash for the regex engine, so not only
the intended word boundaries but also the digit classes and the dot are
literalized: the pattern actually matches a literal backslash, the letter
b, then (captured) a literal backslash, one to seven letter d characters,
optionally a literal backslash, any character except a newline, a literal
backslash and one to four more letter d characters, and finally a literal
backslash and the letter b again. It never matches decimal digits. The
functions below implement the leftmost match with greedy backtracking that
re.search performs on this fixed pattern; the lemmas further down prove
that the pattern can never match the serialised text the fallback scans,
so the fallback arm is dead code. -/

/-- Leading run of decimal digit characters (used by the JSON parser). -/
def leadDigits (cs : List Char) : List Char := cs.takeWhile isDigitC

/-- Leading run of letter d characters. -/
def leadDs (cs : List Char) : List Char := cs.takeWhile (· = 'd')

/-- Does the text start with a literal backslash followed by the letter b. -/
def startsBB : List Char → Bool
  | '\\' :: 'b' :: _ => true
  | _ => false

/-- Greedy attempt at the optional part of the captured group: a literal
backslash, any character except a newline, a literal backslash and j
letter d characters, backtracking j downwards and finally matching
nothing; every choice requires the literal backslash-b closer right
after. Returns the characters the optional part adds to the group. -/
def optTry (rest : List Char) : Nat → Option (List Char)
  | 0 => if startsBB rest then some [] else none
  | j + 1 =>
    match rest with
    | '\\' :: c :: '\\' :: r2 =>
      if c ≠ '\n' ∧ ((leadDs r2).take (j + 1)).length = j + 1 ∧
          startsBB (r2.drop (j + 1)) = true then
        some ('\\' :: c :: '\\' :: (leadDs r2).take (j + 1))
      else optTry rest j
    | _ => optTry rest j

/-- Greedy attempt at the captured group: a literal backslash and k letter
d characters, backtracking k downwards, each choice followed by the
optional part and then the closer. Returns the captured group text. -/
def groupTry (rest : List Char) : Nat → Option (List Char)
  | 0 => none
  | k + 1 =>
    match rest with
    | '\\' :: r1 =>
      if ((leadDs r1).take (k + 1)).length = k + 1 then
        match optTry (r1.drop (k + 1)) 4 with
        | some opt => some ('\\' :: ((leadDs r1).take (k + 1) ++ opt))
        | none => groupTry rest k
      else groupTry rest k
    | _ => none

/-- Attempt to match the pattern at the start of the text; the value is
the captured group. -/
def bbMatchAt : List Char → Option (List Char)
  | '\\' :: 'b' :: rest => groupTry rest 7
  | _ => none

/-- re.search on the fixed pattern: leftmost match wins. -/
def bbSearch : List Char → Option (List Char)
  | [] => none
  | c :: cs =>
    match bbMatchAt (c :: cs) with
    | some g => some g
    | none => bbSearch cs

/-- Characters that may directly follow a backslash in json.dumps output:
every backslash the serialiser emits starts a two-character escape. -/
def escHeads : List Char := ['"', '\\', 'b', 't', 'n', 'f', 'r', 'u']

/-- No backslash occurs in the string. -/
def noBackslashB (s : String) : Bool := s.data.all fun c => decide (c ≠ '\\')

mutual

/-- Backslashes in the serialisation of the value are introduced only by
the string escaper: every float literal is backslash-free, as the printed
representation of a Python float always is. -/
def escSafeB : PyVal → Bool
  | .pyNone => true
  | .pyBool _ => true
  | .pyInt _ => true
  | .pyFloat lit => noBackslashB lit
  | .pyStr _ => true
  | .pyList xs => escSafeItems xs
  | .pyTuple xs => escSafeItems xs
  | .pyDict es => escSafeEntries es

/-- escSafeB on every element. -/
def escSafeItems : List PyVal → Bool
  | [] => true
  | v :: vs => escSafeB v && escSafeItems vs

/-- escSafeB on every value of the entries. -/
def escSafeEntries : List (String × PyVal) → Bool
  | [] => true
  | (_, v) :: es => escSafeB v && escSafeEntries es

end

/-- The escape discipline of serialised text: a backslash only ever starts
a two-character sequence whose second character is an escape head. Text
with this shape never contains a backslash-b-backslash-d run, which every
match of the miswritten fallback pattern needs. -/
inductive EscT : List Char → Prop
  | nil : EscT []
  | plain {c : Char} {cs : List Char} : c ≠ '\\' → EscT cs → EscT (c :: cs)
  | esc {c : Char} {cs : List Char} :
      c ∈ escHeads → EscT cs → EscT ('\\' :: c :: cs)

/-! ## Price extraction -/

/-- Key aliases tried, in priority order, for the price. -/
def priceKeys : List String :=
  ["ltp", "lastPrice", "LTP", "ltpValue", "last_traded_price"]

/-- Alias hit inside one dict response: the first alias key that is present
with a truthy value (a present but falsy value is skipped). -/
def priceKeyHit (es : List (String × PyVal)) : Option (String × PyVal) :=
  priceKeys.findSome? fun k =>
    match PyVal.lookup es k with
    | some v => if PyVal.pyTruthy v then some (k, v) else none
    | none => none

/-- First loop of the extraction step in single_cycle: scan the results in
order, inspect dict results for an alias key, stop at the first hit. -/
def aliasScan : List (String × PyVal) → Option (PyVal × String × String)
  | [] => none
  | (m, res) :: rest =>
    match res with
    | .pyDict es =>
      match priceKeyHit es with
      | some (k, v) => some (v, m, k)
      | none => aliasScan rest
    | _ => aliasScan rest

/-- Second loop of the extraction step: the naive regex fallback over the
truncated serialisation of each response. On a match the source would call
float on the captured group together with the marker entry (method,
"regex-extracted"); the captured group of this pattern always starts with
a backslash, so float would in fact raise, but the lemmas below prove the
match arm is unreachable on serialised text (bbSearch_truncate_none), so
the value modelled for it never arises. -/
def regexScan : List (String × PyVal) → Option (PyVal × String × String)
  | [] => none
  | (m, res) :: rest =>
    match bbSearch (truncate res 500).data with
    | some g => some (.pyFloat (String.mk g), m, "regex-extracted")
    | none => regexScan rest

/-- The whole extraction step of single_cycle: the alias loop, then, only
when it found nothing, the regex fallback. Returns chosen_ltp together with
chosen_entry. -/
def chooseLtp (rs : List (String × PyVal)) : Option (PyVal × String × String) :=
  match aliasScan rs with
  | some c => some c
  | none => regexScan rs

/-! ## Environment, snapshot store and the cycle orchestrator -/

/-- Ambient quantities of one run: the stream of wall-clock readings
(indexed by how many readings happened before), the salted Python string
hash, and the float literal that round(1000 + hash(symbol) % 1000 +
time.time() % 10, 2) produces for a symbol. The latter two are genuinely
run-dependent (hash randomisation, wall clock), so the model keeps them
abstract inputs. -/
structure Env where
  now : Nat → UtcTime
  hash : String → Int
  mockLtp : String → String

/-- One row of the snapshots table: AUTOINCREMENT id, symbol, timestamp
text and the JSON payload text. The payload value is carried alongside the
stored text for specification purposes. -/
structure Row where
  id : Nat
  symbol : String
  ts : String
  payload : PyVal
  payloadText : String
deriving DecidableEq

/-- Orchestrator state: the snapshot table, the auto-increment counter, the
messages handed to the notifier, the broker methods invoked so far, the
clock read counter and whether a login was attempted. -/
structure CycleState where
  rows : List Row
  nextId : Nat
  msgs : List String
  calls : List String
  clk : Nat
  loginTried : Bool
deriving DecidableEq

/-- init_db: CREATE TABLE IF NOT EXISTS is idempotent and changes no row. -/
def init_db (st : CycleState) : CycleState := st

/-- save_snapshot: one INSERT with the next AUTOINCREMENT id, a fresh
datetime.now(timezone.utc).isoformat() and json.dumps of the payload. -/
def save_snapshot (env : Env) (sym : String) (payload : PyVal)
    (st : CycleState) : CycleState :=
  { st with
    rows := st.rows ++ [{ id := st.nextId, symbol := sym,
                          ts := isoformat (env.now st.clk),
                          payload := payload,
                          payloadText := jsonDumps payload }],
    nextId := st.nextId + 1,
    clk := st.clk + 1 }

/-- Entries of the mock payload of mock_snapshot, in insertion order. -/
def mockEntries (env : Env) (clk : Nat) (sym : String) : List (String × PyVal) :=
  [("symbol", .pyStr sym),
   ("ts", .pyStr (isoformat (env.now clk))),
   ("ltp", .pyFloat (env.mockLtp sym)),
   ("volume", .pyInt (1000 + env.hash sym % 500)),
   ("option_chain_ok", .pyBool false),
   ("note", .pyStr "mocked")]

/-- mock_snapshot: the deterministic-shaped placeholder payload. -/
def mock_snapshot (env : Env) (clk : Nat) (sym : String) : PyVal :=
  .pyDict (mockEntries env clk sym)

/-- Python dict .get with default None, on a payload known to be a dict. -/
def pyGet (p : PyVal) (k : String) : PyVal :=
  match p with
  | .pyDict es => (PyVal.lookup es k).getD .pyNone
  | _ => .pyNone

/-- Python dict .get with an explicit default. -/
def pyGetD (p : PyVal) (k : String) (d : PyVal) : PyVal :=
  match p with
  | .pyDict es => (PyVal.lookup es k).getD d
  | _ => d

/-- The oc_ok diagnostic of the message: any option-chain probe result that
is a dict whose key "ok" is identically True. A payload whose
option_chain_probes value is not a dict would raise in Python; the cycle
only ever stores a dict there. -/
def ocOkB (p : PyVal) : Bool :=
  match pyGetD p "option_chain_probes" (.pyDict []) with
  | .pyDict es => es.any fun e =>
      match e.2 with
      | .pyDict d => PyVal.lookup d "ok" == some (.pyBool true)
      | _ => false
  | _ => false

/-- The diagnostic Telegram message composed per symbol. The literal
backslash n sequences of the source (written with doubled backslashes in
the Python f-strings) are reproduced verbatim. -/
def composeMsg (mock : Bool) (sym : String) (payload : PyVal) : String :=
  let base := "Snapshot: " ++ sym ++ "\\n"
  if mock then
    base ++ "MOCK LTP: " ++ pyToStr (pyGet payload "ltp") ++ " (mock)\\n" ++
      "Note: mock_mode ON\\n" ++ "Time: " ++ pyToStr (pyGet payload "ts")
  else
    base ++ "Chosen LTP: " ++ pyToStr (pyGet payload "chosen_ltp") ++ "\\n" ++
      "OptionChain_ok: " ++ pyToStr (.pyBool (ocOkB payload)) ++ "\\n" ++
      "See logs/DB for full raw responses.\\n" ++
      "Time: " ++ pyToStr (pyGet payload "ts")

/-- The payload assembled in the non-mock branch of single_cycle. -/
def assembledPayload (api : Api) (env : Env) (clk : Nat) (sym : String) : PyVal :=
  let ltp_results := fetch_ltp_by_method api sym
  let oc_results := fetch_option_chain_probes api sym
  let chosen := chooseLtp ltp_results
  .pyDict [("symbol", .pyStr sym),
           ("ltp_candidates", .pyDict ltp_results),
           ("option_chain_probes", .pyDict oc_results),
           ("chosen_ltp", (chosen.map fun c => c.1).getD .pyNone),
           ("chosen_entry",
             match chosen with
             | some (_, m, k) => .pyTuple [.pyStr m, .pyStr k]
             | none => .pyNone),
           ("ts", .pyStr (isoformat (env.now clk)))]

/-- The broker method names one non-mock symbol iteration invokes, in
order. -/
def callsFor (api : Api) : List String :=
  ltpCandidates.filter api.hasMethod ++ quoteCandidates.filter api.hasMethod ++
  ocProbes.filter api.hasMethod ++ instProbes.filter api.hasMethod

/-- The body of the per-symbol loop of single_cycle: build the payload
(mock payload with a debug marker when mock mode is on or the login failed,
assembled fetch payload otherwise), persist it, compose and send the
message. Two clock readings happen per symbol: one for the payload ts, one
inside save_snapshot. -/
def processSymbol (mock : Bool) (login : Except String Api) (env : Env)
    (st : CycleState) (sym : String) : CycleState :=
  match mock, login with
  | false, .ok api =>
    let payload := assembledPayload api env st.clk sym
    let st1 := { st with clk := st.clk + 1, calls := st.calls ++ callsFor api }
    let st2 := save_snapshot env sym payload st1
    { st2 with msgs := st2.msgs ++ [composeMsg false sym payload] }
  | _, _ =>
    let payload := PyVal.pyDict (PyVal.dictSet (mockEntries env st.clk sym) "debug"
      (.pyStr (if mock then "mock_mode" else "login_failed")))
    let st1 := { st with clk := st.clk + 1 }
    let st2 := save_snapshot env sym payload st1
    { st2 with msgs := st2.msgs ++ [composeMsg mock sym payload] }

/-- The configured symbol list. -/
def SYMBOLS : List String := ["NIFTY", "SENSEX", "RELIANCE", "HDFCBANK"]

/-- The empty initial orchestrator state. -/
def init0 : CycleState :=
  { rows := [], nextId := 0, msgs := [], calls := [], clk := 0, loginTried := false }

/-- single_cycle: create the table, attempt the login unless mock mode is
on (the attempt outcome is the login argument), then run the per-symbol
loop over the configured symbols. An exception inside one symbol iteration
is caught by the source and the loop continues; the modelled body is total,
so every iteration completes. -/
def single_cycle (mock : Bool) (login : Except String Api) (env : Env)
    (st0 : CycleState) : CycleState :=
  let st1 := init_db st0
  let st2 := { st1 with loginTried := !mock }
  SYMBOLS.foldl (processSymbol mock login env) st2

/-! ## CLI entry point -/

/-- The parsed CLI flags. The one_shot flag is read but has no effect in the
source (the branch that inspects it only passes). -/
structure Args where
  loop : Bool
  one_shot : Bool
  mock : Bool
  debug : Bool
deriving DecidableEq

/-- The broker credentials read from the environment at startup. A missing
variable is none; an empty string is falsy like in Python. -/
structure Creds where
  api_key : Option String
  client_code : Option String
  password : Option String
  totp_secret : Option String
deriving DecidableEq

/-- Python truthiness of an optional environment string. -/
def credTruthy : Option String → Bool
  | none => false
  | some s => s != ""

/-- login_smartapi up to the external call: raises when the client library
is unavailable, or when a required credential is missing or empty;
otherwise the SmartConnect construction and method lookup decide the
outcome, which the model takes as an input. A generateSession call that
fails does not raise out of this function in the source, because the
safe-call wrapper already converted it; that case is an ok outcome whose
api object is unauthenticated. -/
def login_smartapi (avail : Bool) (creds : Creds)
    (outcome : Except String Api) : Except String Api :=
  if !avail then .error "SmartAPI client not installed"
  else if !credTruthy creds.api_key || !credTruthy creds.client_code ||
      !credTruthy creds.password then
    .error "ANGEL_API_KEY, ANGEL_CLIENT_CODE or ANGEL_PASSWORD missing in environment."
  else outcome

/-- Observable outcome of the process: the exit code, whether any cycle
ran, and the final orchestrator state of a completed one-shot run. -/
structure MainResult where
  exitCode : Nat
  ranCycle : Bool
  final : Option CycleState
deriving DecidableEq

/-- The __main__ block: exit code 3 before any cycle when the client
library is missing and mock mode was not requested; a KeyboardInterrupt is
caught and the process ends with exit code 0 (modelled as the interrupt
arriving before a run completes); loop mode without an interrupt never
exits (none); a completed one-shot run exits 0. An exception escaping the
run would be re-raised, but the modelled run is total, so that path is
unreachable. -/
def mainRun (args : Args) (avail : Bool) (creds : Creds)
    (outcome : Except String Api) (env : Env) (interrupted : Bool) :
    Option MainResult :=
  if !args.mock && !avail then
    some { exitCode := 3, ranCycle := false, final := none }
  else if interrupted then
    some { exitCode := 0, ranCycle := false, final := none }
  else if args.loop then none
  else
    let st := single_cycle args.mock (login_smartapi avail creds outcome) env init0
    some { exitCode := 0, ranCycle := true, final := some st }

/-! ## The loop scheduler arithmetic of run_loop -/

/-- A local wall-clock time of day, as datetime.now() provides it to the
scheduler; the computation only ever touches the time-of-day fields, since
datetime.replace keeps the date. -/
structure LocalTime where
  hour : Nat
  minute : Nat
  second : Nat
  microsecond : Nat
deriving DecidableEq

/-- Field ranges of a real time of day. -/
def LocalTime.validB (t : LocalTime) : Bool :=
  t.hour < 24 && t.minute < 60 && t.second < 60 && t.microsecond < 1000000

/-- Microseconds since local midnight. -/
def LocalTime.toMicros (t : LocalTime) : Int :=
  ((((t.hour * 60 + t.minute) * 60 + t.second) * 1000000 + t.microsecond : Nat) : Int)

/-- The next-run computation of run_loop, transcribed: round the minute up
to the next multiple of 30, and on overflow move to minute 0 of the next
hour modulo 24. datetime.replace keeps the calendar date, so the result is
a time of day on the same date even when the hour wraps past midnight. -/
def next_run (now : LocalTime) : LocalTime :=
  let next_min := now.minute / 30 * 30 + 30
  if 60 ≤ next_min then
    { hour := (now.hour + 1) % 24, minute := 0, second := 5, microsecond := 0 }
  else
    { hour := now.hour, minute := next_min, second := 5, microsecond := 0 }

/-- (next_run - now).total_seconds(): both datetimes carry the same date,
so the difference is the time-of-day difference in seconds; it is negative
when the computed next run is earlier in the day. -/
def sleep_seconds (now : LocalTime) : ℚ :=
  (((next_run now).toMicros - now.toMicros : Int) : ℚ) / 1000000

/-- The sleep run_loop actually performs: time.sleep(max(10, sleep_seconds)). -/
def sleepUsed (now : LocalTime) : ℚ := max 10 (sleep_seconds now)

/-- A time of day on a :00:05 or :30:05 half-hour boundary. -/
def isBoundaryB (t : LocalTime) : Bool :=
  (t.minute = 0 || t.minute = 30) && t.second = 5 && t.microsecond = 0

/-- Modelled from the spec: the next `:00:05` or `:30:05` boundary strictly
after the given time, as a time of day. Crossing midnight wraps the hour to
0; the boundary is then on the following day. -/
def specNextBoundary (now : LocalTime) : LocalTime :=
  if now.minute = 0 && now.second < 5 then
    { hour := now.hour, minute := 0, second := 5, microsecond := 0 }
  else if now.minute < 30 then
    { hour := now.hour, minute := 30, second := 5, microsecond := 0 }
  else if now.minute = 30 && now.second < 5 then
    { hour := now.hour, minute := 30, second := 5, microsecond := 0 }
  else
    { hour := (now.hour + 1) % 24, minute := 0, second := 5, microsecond := 0 }

/-! ## json.loads

A character-level model of the JSON reader, covering the grammar that
json.dumps emits in this program. Exponent-form numbers are not produced
by any payload here and are not modelled; the reader is lenient about a
few malformed inputs (leading zeros, trailing commas) that no serialiser
output contains. Duplicate object keys are folded the way the Python dict
builder folds them: the first occurrence keeps its position, the value is
overwritten. -/

/-- JSON whitespace. -/
def isWsC (c : Char) : Bool :=
  c.toNat = 32 || c.toNat = 9 || c.toNat = 10 || c.toNat = 13

/-- Skip leading whitespace. -/
def skipWs (cs : List Char) : List Char := cs.dropWhile isWsC

/-- Hexadecimal digit test, lower case as the escaper emits. -/
def isHexC (c : Char) : Bool := isDigitC c || (97 ≤ c.toNat && c.toNat ≤ 102)

/-- Reader of a string body after the opening quote, unescaping as
json.loads does, with the accumulator reversed. -/
def parseStrAux : List Char → List Char → Option (String × List Char)
  | [], _ => none
  | c :: rest, acc =>
    if c = '"' then some (String.mk acc.reverse, rest)
    else if c = '\\' then
      match rest with
      | [] => none
      | e :: r2 =>
        if e = '"' then parseStrAux r2 ('"' :: acc)
        else if e = '\\' then parseStrAux r2 ('\\' :: acc)
        else if e = '/' then parseStrAux r2 ('/' :: acc)
        else if e = 'b' then parseStrAux r2 (Char.ofNat 8 :: acc)
        else if e = 'f' then parseStrAux r2 (Char.ofNat 12 :: acc)
        else if e = 'n' then parseStrAux r2 (Char.ofNat 10 :: acc)
        else if e = 'r' then parseStrAux r2 (Char.ofNat 13 :: acc)
        else if e = 't' then parseStrAux r2 (Char.ofNat 9 :: acc)
        else if e = 'u' then
          match r2 with
          | h1 :: h2 :: h3 :: h4 :: r3 =>
            if isHexC h1 && isHexC h2 && isHexC h3 && isHexC h4 then
              parseStrAux r3
                (Char.ofNat (((hexVal h1 * 16 + hexVal h2) * 16 + hexVal h3) * 16 +
                  hexVal h4) :: acc)
            else none
          | _ => none
        else none
    else parseStrAux rest (c :: acc)

/-- Reader of a number, after an optional leading minus sign was consumed.
A token with a fraction becomes a float carrying its literal; a bare digit
run becomes an int. -/
def parseNum (cs : List Char) (neg : Bool) : Option (PyVal × List Char) :=
  let ds := leadDigits cs
  if ds.isEmpty then none
  else
    let r1 := cs.drop ds.length
    match r1 with
    | '.' :: r2 =>
      let fs := leadDigits r2
      if fs.isEmpty then none
      else
        some (.pyFloat (String.mk ((if neg then ['-'] else []) ++ ds ++ '.' :: fs)),
          r2.drop fs.length)
    | _ =>
      some (.pyInt (if neg then -(digitsVal ds : Int) else (digitsVal ds : Int)), r1)

mutual

/-- Reader of one JSON value. The fuel argument strictly decreases on every
recursive call; jsonLoads supplies enough fuel for any input of the given
length. -/
def parseVal : Nat → List Char → Option (PyVal × List Char)
  | 0, _ => none
  | fuel + 1, cs =>
    match skipWs cs with
    | [] => none
    | c :: rest =>
      if c = 'n' then
        match rest with
        | 'u' :: 'l' :: 'l' :: r => some (.pyNone, r)
        | _ => none
      else if c = 't' then
        match rest with
        | 'r' :: 'u' :: 'e' :: r => some (.pyBool true, r)
        | _ => none
      else if c = 'f' then
        match rest with
        | 'a' :: 'l' :: 's' :: 'e' :: r => some (.pyBool false, r)
        | _ => none
      else if c = '"' then
        match parseStrAux rest [] with
        | some (s, r) => some (.pyStr s, r)
        | none => none
      else if c = '{' then
        match parseEntries fuel rest with
        | some (es, r) =>
          some (.pyDict (es.foldl (fun acc e => PyVal.dictSet acc e.1 e.2) []), r)
        | none => none
      else if c = '[' then
        match parseItems fuel rest with
        | some (vs, r) => some (.pyList vs, r)
        | none => none
      else if c = '-' then parseNum rest true
      else if isDigitC c then parseNum (c :: rest) false
      else none

/-- Reader of array elements up to and including the closing bracket. -/
def parseItems : Nat → List Char → Option (List PyVal × List Char)
  | 0, _ => none
  | fuel + 1, cs =>
    match skipWs cs with
    | [] => none
    | c :: rest =>
      if c = ']' then some ([], rest)
      else
        match parseVal fuel (c :: rest) with
        | none => none
        | some (v, r1) =>
          match skipWs r1 with
          | [] => none
          | d :: r2 =>
            if d = ',' then
              match parseItems fuel r2 with
              | some (vs, r) => some (v :: vs, r)
              | none => none
            else if d = ']' then some ([v], r2)
            else none

/-- Reader of object entries up to and including the closing brace. -/
def parseEntries : Nat → List Char → Option (List (String × PyVal) × List Char)
  | 0, _ => none
  | fuel + 1, cs =>
    match skipWs cs with
    | [] => none
    | c :: rest =>
      if c = '}' then some ([], rest)
      else if c = '"' then
        match parseStrAux rest [] with
        | none => none
        | some (k, r1) =>
          match skipWs r1 with
          | [] => none
          | d :: r2 =>
            if d = ':' then
              match parseVal fuel r2 with
              | none => none
              | some (v, r3) =>
                match skipWs r3 with
                | [] => none
                | e2 :: r4 =>
                  if e2 = ',' then
                    match parseEntries fuel r4 with
                    | some (es, r) => some ((k, v) :: es, r)
                    | none => none
                  else if e2 = '}' then some ([(k, v)], r4)
                  else none
            else none
      else none

end

/-- The json.loads model: read one value, require only whitespace after. -/
def jsonLoads (s : String) : Option PyVal :=
  match parseVal (2 * s.data.length + 2) s.data with
  | some (v, rest) => if (skipWs rest).isEmpty then some v else none
  | none => none

mutual

/-- Fuel sufficient for parseVal to read the serialisation of a value. -/
def needV : PyVal → Nat
  | .pyList xs => 1 + needItems xs
  | .pyTuple xs => 1 + needItems xs
  | .pyDict es => 1 + needEntries es
  | _ => 1

/-- Fuel sufficient for parseItems on serialised elements. -/
def needItems : List PyVal → Nat
  | [] => 1
  | [v] => 1 + needV v
  | v :: w :: vs => 1 + needV v + needItems (w :: vs)

/-- Fuel sufficient for parseEntries on serialised entries. -/
def needEntries : List (String × PyVal) → Nat
  | [] => 1
  | [e] => 1 + needV e.2
  | e :: f :: es => 1 + needV e.2 + needEntries (f :: es)

end

/-- Well-formedness of a float literal: optional minus sign, a nonempty
digit run, a dot, and a nonempty digit run to the end, which is the shape
repr of a finite float prints (without exponent). -/
def wfFloatCore (cs : List Char) : Bool :=
  let ds := leadDigits cs
  !ds.isEmpty &&
    (match cs.drop ds.length with
     | '.' :: r2 =>
       let fs := leadDigits r2
       !fs.isEmpty && (r2.drop fs.length).isEmpty
     | _ => false)

/-- Well-formedness of a float literal including the optional sign. -/
def wfFloatLit (s : String) : Bool :=
  match s.data with
  | [] => false
  | c :: cs => if c = '-' then wfFloatCore cs else wfFloatCore (c :: cs)

mutual

/-- Payloads for which the JSON round trip is exact: no tuples, float
literals in canonical shape, dict keys distinct at every level. -/
def wfB : PyVal → Bool
  | .pyNone => true
  | .pyBool _ => true
  | .pyInt _ => true
  | .pyFloat lit => wfFloatLit lit
  | .pyStr _ => true
  | .pyList xs => wfItems xs
  | .pyTuple _ => false
  | .pyDict es => (es.map Prod.fst).Nodup && wfEntries es

/-- Well-formedness of list elements. -/
def wfItems : List PyVal → Bool
  | [] => true
  | v :: vs => wfB v && wfItems vs

/-- Well-formedness of dict entry values. -/
def wfEntries : List (String × PyVal) → Bool
  | [] => true
  | e :: es => wfB e.2 && wfEntries es

end

/-! ## Round-trip lemmas: character and scanning helpers -/

theorem isDigitC_spec {c : Char} (h : isDigitC c = true) :
    48 ≤ c.toNat ∧ c.toNat ≤ 57 := by
  simpa [isDigitC] using h

theorem isWsC_false_of_digit {c : Char} (h : isDigitC c = true) :
    isWsC c = false := by
  have := isDigitC_spec h
  simp only [isWsC, Bool.or_eq_false_iff, decide_eq_false_iff_not]
  omega

theorem digit_ne_n {c : Char} (h : isDigitC c = true) : c ≠ 'n' := by
  rintro rfl; exact absurd h (by decide)

theorem digit_ne_t {c : Char} (h : isDigitC c = true) : c ≠ 't' := by
  rintro rfl; exact absurd h (by decide)

theorem digit_ne_f {c : Char} (h : isDigitC c = true) : c ≠ 'f' := by
  rintro rfl; exact absurd h (by decide)

theorem digit_ne_quote {c : Char} (h : isDigitC c = true) : c ≠ '"' := by
  rintro rfl; exact absurd h (by decide)

theorem digit_ne_lbrace {c : Char} (h : isDigitC c = true) : c ≠ '\x7b' := by
  rintro rfl; exact absurd h (by decide)

theorem digit_ne_lbrack {c : Char} (h : isDigitC c = true) : c ≠ '[' := by
  rintro rfl; exact absurd h (by decide)

theorem digit_ne_minus {c : Char} (h : isDigitC c = true) : c ≠ '-' := by
  rintro rfl; exact absurd h (by decide)

theorem digit_ne_rbrack {c : Char} (h : isDigitC c = true) : c ≠ ']' := by
  rintro rfl; exact absurd h (by decide)

theorem digit_ne_rbrace {c : Char} (h : isDigitC c = true) : c ≠ '\x7d' := by
  rintro rfl; exact absurd h (by decide)

theorem digit_ne_comma {c : Char} (h : isDigitC c = true) : c ≠ ',' := by
  rintro rfl; exact absurd h (by decide)

theorem digit_ne_colon {c : Char} (h : isDigitC c = true) : c ≠ ':' := by
  rintro rfl; exact absurd h (by decide)

theorem skipWs_cons {c : Char} {cs : List Char} (h : isWsC c = false) :
    skipWs (c :: cs) = c :: cs := by
  simp [skipWs, List.dropWhile_cons, h]

theorem skipWs_cons_ws {c : Char} {cs : List Char} (h : isWsC c = true) :
    skipWs (c :: cs) = skipWs cs := by
  simp [skipWs, List.dropWhile_cons, h]

/-- Head of the text is not a digit. -/
def headNotDigit : List Char → Bool
  | [] => true
  | c :: _ => !isDigitC c

/-- Texts a number token may be followed by during the round trip. -/
def numSafe : List Char → Bool
  | [] => true
  | c :: _ => c = ',' || c = '\x7d' || c = ']'

theorem headNotDigit_of_numSafe {rest : List Char} (h : numSafe rest = true) :
    headNotDigit rest = true := by
  cases rest with
  | nil => rfl
  | cons c cs =>
    simp only [numSafe, Bool.or_eq_true, decide_eq_true_eq] at h
    rcases h with (rfl | rfl) | rfl <;> rfl

theorem leadDigits_app {ds rest : List Char} (hd : ∀ c ∈ ds, isDigitC c = true)
    (hr : headNotDigit rest = true) : leadDigits (ds ++ rest) = ds := by
  induction ds with
  | nil =>
    simp only [List.nil_append]
    cases rest with
    | nil => rfl
    | cons r rs =>
      simp only [headNotDigit, Bool.not_eq_true'] at hr
      simp [leadDigits, List.takeWhile_cons, hr]
  | cons d ds ih =>
    simp only [List.cons_append, leadDigits, List.takeWhile_cons, hd d (by simp)]
    have := ih (fun c hc => hd c (by simp [hc]))
    simp only [leadDigits] at this
    simp [this]

theorem drop_app (xs ys : List Char) : (xs ++ ys).drop xs.length = ys := by
  simp

theorem string_mk_data (s : String) : String.mk s.data = s := by
  cases s
  rfl

/-! ## Round-trip lemmas: numbers -/

theorem parseNum_nat (n : Nat) {rest : List Char} (hr : numSafe rest = true)
    (neg : Bool) :
    parseNum (natToChars n ++ rest) neg =
      some (.pyInt (if neg then -(n : Int) else (n : Int)), rest) := by
  unfold parseNum
  dsimp only
  rw [leadDigits_app (natToChars_all_digits n) (headNotDigit_of_numSafe hr)]
  rw [drop_app]
  rw [if_neg (by simp [natToChars_ne_nil n])]
  cases rest with
  | nil => simp [digitsVal_natToChars]
  | cons c cs =>
    simp only [numSafe, Bool.or_eq_true, decide_eq_true_eq] at hr
    rcases hr with (rfl | rfl) | rfl <;> simp [digitsVal_natToChars]

theorem parseVal_minus (fuel : Nat) (cs : List Char) :
    parseVal (fuel + 1) ('-' :: cs) = parseNum cs true := rfl

theorem parseVal_digit (fuel : Nat) {c : Char} (h : isDigitC c = true)
    (cs : List Char) :
    parseVal (fuel + 1) (c :: cs) = parseNum (c :: cs) false := by
  unfold parseVal
  rw [skipWs_cons (isWsC_false_of_digit h)]
  dsimp only
  rw [if_neg (digit_ne_n h), if_neg (digit_ne_t h), if_neg (digit_ne_f h),
    if_neg (digit_ne_quote h), if_neg (digit_ne_lbrace h),
    if_neg (digit_ne_lbrack h), if_neg (digit_ne_minus h), if_pos h]

theorem parseVal_int (fuel : Nat) (n : Int) {rest : List Char}
    (hr : numSafe rest = true) :
    parseVal (fuel + 1) (intChars n ++ rest) = some (.pyInt n, rest) := by
  unfold intChars
  by_cases hneg : n < 0
  · rw [if_pos hneg]
    rw [List.cons_append, parseVal_minus, parseNum_nat n.natAbs hr true]
    have he : -((n.natAbs : Nat) : Int) = n := by omega
    rw [if_pos rfl, he]
  · rw [if_neg hneg]
    obtain ⟨c, cs, hc, hdig⟩ : ∃ c cs, natToChars n.natAbs = c :: cs ∧
        isDigitC c = true := by
      cases h : natToChars n.natAbs with
      | nil => exact absurd h (natToChars_ne_nil _)
      | cons c cs =>
        exact ⟨c, cs, rfl, natToChars_all_digits _ c (by rw [h]; simp)⟩
    rw [hc, List.cons_append, parseVal_digit fuel hdig, ← List.cons_append, ← hc,
      parseNum_nat n.natAbs hr false]
    have he : ((n.natAbs : Nat) : Int) = n := by omega
    rw [if_neg (by decide), he]

/-! ## Round-trip lemmas: floats -/

theorem drop_leadDigits (cs : List Char) :
    cs.drop (leadDigits cs).length = cs.dropWhile isDigitC := by
  induction cs with
  | nil => rfl
  | cons c cs ih =>
    by_cases h : isDigitC c
    · simp only [leadDigits, List.takeWhile_cons, h, if_true, List.length_cons,
        List.drop_succ_cons, List.dropWhile_cons]
      simpa [leadDigits] using ih
    · simp only [leadDigits, List.takeWhile_cons, List.dropWhile_cons, h]
      simp [h]

theorem leadDigits_prefix_eq (cs : List Char) :
    cs.take (leadDigits cs).length = leadDigits cs := by
  induction cs with
  | nil => rfl
  | cons c cs ih =>
    by_cases h : isDigitC c
    · simp only [leadDigits, List.takeWhile_cons, h, if_true, List.length_cons,
        List.take_succ_cons]
      simpa [leadDigits] using ih
    · simp [leadDigits, List.takeWhile_cons, h]

theorem wfFloatCore_decomp {cs : List Char} (h : wfFloatCore cs = true) :
    ∃ ds fs, cs = ds ++ '.' :: fs ∧ ds ≠ [] ∧ fs ≠ [] ∧
      (∀ c ∈ ds, isDigitC c = true) ∧ (∀ c ∈ fs, isDigitC c = true) := by
  unfold wfFloatCore at h
  rw [Bool.and_eq_true] at h
  obtain ⟨hds, hrest⟩ := h
  split at hrest
  case h_2 => exact absurd hrest (by simp)
  case h_1 r2 heq =>
    rw [Bool.and_eq_true] at hrest
    obtain ⟨hfs, hend⟩ := hrest
    have hcs : cs = leadDigits cs ++ '.' :: r2 := by
      conv_lhs => rw [← List.take_append_drop (leadDigits cs).length cs]
      rw [leadDigits_prefix_eq, heq]
    have hr2 : r2 = leadDigits r2 := by
      conv_lhs => rw [← List.take_append_drop (leadDigits r2).length r2]
      rw [leadDigits_prefix_eq]
      have : r2.drop (leadDigits r2).length = [] := by
        simpa using hend
      rw [this, List.append_nil]
    refine ⟨leadDigits cs, r2, hcs, by simpa using hds, ?_, ?_, ?_⟩
    · intro he
      subst he
      simp [leadDigits] at hfs
    · intro c hc
      exact List.mem_takeWhile_imp hc
    · intro c hc
      rw [hr2] at hc
      exact List.mem_takeWhile_imp hc

theorem parseNum_wfCore {cs rest : List Char} (h : wfFloatCore cs = true)
    (hr : numSafe rest = true) (neg : Bool) :
    parseNum (cs ++ rest) neg =
      some (.pyFloat (String.mk ((if neg then ['-'] else []) ++ cs)), rest) := by
  obtain ⟨ds, fs, rfl, hdne, hfne, hdd, hfd⟩ := wfFloatCore_decomp h
  unfold parseNum
  dsimp only
  rw [List.append_assoc, List.cons_append]
  rw [leadDigits_app hdd (by rfl)]
  rw [if_neg (by simp [hdne])]
  rw [drop_app]
  split
  · rename_i r2 heq2
    injection heq2 with h1 h2
    subst h2
    rw [leadDigits_app hfd (headNotDigit_of_numSafe hr)]
    rw [if_neg (by simp [hfne])]
    rw [drop_app]
    simp [List.append_assoc]
  · rename_i hno
    exact (hno (fs ++ rest) rfl).elim

theorem parseVal_float (fuel : Nat) {lit : String} (h : wfFloatLit lit = true)
    {rest : List Char} (hr : numSafe rest = true) :
    parseVal (fuel + 1) (lit.data ++ rest) = some (.pyFloat lit, rest) := by
  unfold wfFloatLit at h
  cases hdata : lit.data with
  | nil => rw [hdata] at h; exact absurd h (by simp)
  | cons c cs =>
    rw [hdata] at h
    dsimp only at h
    by_cases hc : c = '-'
    · subst hc
      rw [if_pos rfl] at h
      rw [List.cons_append, parseVal_minus, parseNum_wfCore h hr true]
      rw [show ((if true then ['-'] else []) ++ cs : List Char) = '-' :: cs from rfl,
        ← hdata, string_mk_data]
    · rw [if_neg hc] at h
      have hcd : isDigitC c = true := by
        obtain ⟨ds, fs, heq, hdne, _, hdd, _⟩ := wfFloatCore_decomp h
        cases ds with
        | nil => exact absurd rfl hdne
        | cons d ds' =>
          have hcd' : c = d := by
            rw [List.cons_append] at heq
            injection heq with h1 h2
          exact hcd' ▸ hdd d (by simp)
      rw [List.cons_append, parseVal_digit fuel hcd, ← List.cons_append,
        parseNum_wfCore h hr false]
      rw [show ((if false then ['-'] else []) ++ (c :: cs) : List Char) = c :: cs from rfl,
        ← hdata, string_mk_data]

/-! ## Round-trip lemmas: strings -/

theorem hexVal_hexCh {d : Nat} (h : d < 16) : hexVal (hexCh d) = d := by
  interval_cases d <;> rfl

theorem isHexC_hexCh {d : Nat} (h : d < 16) : isHexC (hexCh d) = true := by
  interval_cases d <;> rfl

theorem parseStrAux_plain {c : Char} (h1 : c ≠ '"') (h2 : c ≠ '\\')
    (cs acc : List Char) :
    parseStrAux (c :: cs) acc = parseStrAux cs (c :: acc) := by
  rw [parseStrAux.eq_def]
  dsimp only
  rw [if_neg h1, if_neg h2]

theorem parseStrAux_unicode {h3 h4 : Char} (hh3 : isHexC h3 = true)
    (hh4 : isHexC h4 = true) (cs acc : List Char) :
    parseStrAux ('\\' :: 'u' :: '0' :: '0' :: h3 :: h4 :: cs) acc =
      parseStrAux cs (Char.ofNat (hexVal h3 * 16 + hexVal h4) :: acc) := by
  rw [parseStrAux.eq_def]
  dsimp only
  rw [if_neg (by decide), if_pos rfl, if_neg (by decide), if_neg (by decide),
    if_neg (by decide), if_neg (by decide), if_neg (by decide),
    if_neg (by decide), if_neg (by decide), if_neg (by decide), if_pos rfl,
    if_pos (show (isHexC '0' && isHexC '0' && isHexC h3 && isHexC h4) = true by
      simp [hh3, hh4]; decide)]
  rw [show hexVal '0' = 0 from rfl]
  norm_num

theorem parseStrAux_quote (cs acc : List Char) :
    parseStrAux ('"' :: cs) acc = some (String.mk acc.reverse, cs) := by
  rw [parseStrAux.eq_def]
  dsimp only
  rw [if_pos rfl]

theorem parseStrAux_bs_quote (cs acc : List Char) :
    parseStrAux ('\\' :: '"' :: cs) acc = parseStrAux cs ('"' :: acc) := by
  rw [parseStrAux.eq_def]
  dsimp only
  rw [if_neg (by decide), if_pos rfl, if_pos rfl]

theorem parseStrAux_bs_bs (cs acc : List Char) :
    parseStrAux ('\\' :: '\\' :: cs) acc = parseStrAux cs ('\\' :: acc) := by
  rw [parseStrAux.eq_def]
  dsimp only
  rw [if_neg (by decide), if_pos rfl, if_neg (by decide), if_pos rfl]

theorem parseStrAux_bs_b (cs acc : List Char) :
    parseStrAux ('\\' :: 'b' :: cs) acc = parseStrAux cs (Char.ofNat 8 :: acc) := by
  rw [parseStrAux.eq_def]
  dsimp only
  rw [if_neg (by decide), if_pos rfl, if_neg (by decide), if_neg (by decide),
    if_neg (by decide), if_pos rfl]

theorem parseStrAux_bs_t (cs acc : List Char) :
    parseStrAux ('\\' :: 't' :: cs) acc = parseStrAux cs (Char.ofNat 9 :: acc) := by
  rw [parseStrAux.eq_def]
  dsimp only
  rw [if_neg (by decide), if_pos rfl, if_neg (by decide), if_neg (by decide),
    if_neg (by decide), if_neg (by decide), if_neg (by decide), if_neg (by decide),
    if_neg (by decide), if_pos rfl]

theorem parseStrAux_bs_n (cs acc : List Char) :
    parseStrAux ('\\' :: 'n' :: cs) acc = parseStrAux cs (Char.ofNat 10 :: acc) := by
  rw [parseStrAux.eq_def]
  dsimp only
  rw [if_neg (by decide), if_pos rfl, if_neg (by decide), if_neg (by decide),
    if_neg (by decide), if_neg (by decide), if_neg (by decide), if_pos rfl]

theorem parseStrAux_bs_f (cs acc : List Char) :
    parseStrAux ('\\' :: 'f' :: cs) acc = parseStrAux cs (Char.ofNat 12 :: acc) := by
  rw [parseStrAux.eq_def]
  dsimp only
  rw [if_neg (by decide), if_pos rfl, if_neg (by decide), if_neg (by decide),
    if_neg (by decide), if_neg (by decide), if_pos rfl]

theorem parseStrAux_bs_r (cs acc : List Char) :
    parseStrAux ('\\' :: 'r' :: cs) acc = parseStrAux cs (Char.ofNat 13 :: acc) := by
  rw [parseStrAux.eq_def]
  dsimp only
  rw [if_neg (by decide), if_pos rfl, if_neg (by decide), if_neg (by decide),
    if_neg (by decide), if_neg (by decide), if_neg (by decide), if_neg (by decide),
    if_pos rfl]

theorem char_ofNat_of_toNat {c : Char} {n : Nat} (h : c.toNat = n) :
    Char.ofNat n = c := by
  rw [← h]
  exact Char.ofNat_toNat c

theorem parseStrAux_esc (l : List Char) : ∀ (acc rest : List Char),
    parseStrAux (escStr l ++ '"' :: rest) acc =
      some (String.mk (acc.reverse ++ l), rest) := by
  induction l with
  | nil =>
    intro acc rest
    simp only [escStr, List.foldr_nil, List.nil_append, List.append_nil]
    rw [parseStrAux_quote]
  | cons c l ih =>
    intro acc rest
    rw [show escStr (c :: l) = escChar c ++ escStr l from rfl, List.append_assoc]
    unfold escChar
    by_cases h1 : c = '"'
    · subst h1
      rw [if_pos rfl]
      rw [show (['\\', '"'] : List Char) ++ (escStr l ++ '"' :: rest) =
        '\\' :: '"' :: (escStr l ++ '"' :: rest) from rfl]
      rw [parseStrAux_bs_quote]
      rw [ih]
      simp
    rw [if_neg h1]
    by_cases h2 : c = '\\'
    · subst h2
      rw [if_pos rfl]
      rw [show (['\\', '\\'] : List Char) ++ (escStr l ++ '"' :: rest) =
        '\\' :: '\\' :: (escStr l ++ '"' :: rest) from rfl]
      rw [parseStrAux_bs_bs]
      rw [ih]
      simp
    rw [if_neg h2]
    by_cases h3 : c.toNat = 8
    · rw [if_pos h3]
      rw [show (['\\', 'b'] : List Char) ++ (escStr l ++ '"' :: rest) =
        '\\' :: 'b' :: (escStr l ++ '"' :: rest) from rfl]
      rw [parseStrAux_bs_b]
      rw [ih, char_ofNat_of_toNat h3]
      simp
    rw [if_neg h3]
    by_cases h4 : c.toNat = 9
    · rw [if_pos h4]
      rw [show (['\\', 't'] : List Char) ++ (escStr l ++ '"' :: rest) =
        '\\' :: 't' :: (escStr l ++ '"' :: rest) from rfl]
      rw [parseStrAux_bs_t]
      rw [ih, char_ofNat_of_toNat h4]
      simp
    rw [if_neg h4]
    by_cases h5 : c.toNat = 10
    · rw [if_pos h5]
      rw [show (['\\', 'n'] : List Char) ++ (escStr l ++ '"' :: rest) =
        '\\' :: 'n' :: (escStr l ++ '"' :: rest) from rfl]
      rw [parseStrAux_bs_n]
      rw [ih, char_ofNat_of_toNat h5]
      simp
    rw [if_neg h5]
    by_cases h6 : c.toNat = 12
    · rw [if_pos h6]
      rw [show (['\\', 'f'] : List Char) ++ (escStr l ++ '"' :: rest) =
        '\\' :: 'f' :: (escStr l ++ '"' :: rest) from rfl]
      rw [parseStrAux_bs_f]
      rw [ih, char_ofNat_of_toNat h6]
      simp
    rw [if_neg h6]
    by_cases h7 : c.toNat = 13
    · rw [if_pos h7]
      rw [show (['\\', 'r'] : List Char) ++ (escStr l ++ '"' :: rest) =
        '\\' :: 'r' :: (escStr l ++ '"' :: rest) from rfl]
      rw [parseStrAux_bs_r]
      rw [ih, char_ofNat_of_toNat h7]
      simp
    rw [if_neg h7]
    by_cases h8 : c.toNat < 32
    · rw [if_pos h8]
      rw [show (['\\', 'u', '0', '0', hexCh (c.toNat / 16), hexCh (c.toNat % 16)] :
          List Char) ++ (escStr l ++ '"' :: rest) =
        '\\' :: 'u' :: '0' :: '0' :: hexCh (c.toNat / 16) :: hexCh (c.toNat % 16) ::
          (escStr l ++ '"' :: rest) from rfl]
      rw [parseStrAux_unicode (isHexC_hexCh (by omega)) (isHexC_hexCh (by omega))]
      rw [hexVal_hexCh (by omega), hexVal_hexCh (by omega)]
      rw [show c.toNat / 16 * 16 + c.toNat % 16 = c.toNat by omega]
      rw [ih, Char.ofNat_toNat c]
      simp
    rw [if_neg h8]
    rw [show ([c] : List Char) ++ (escStr l ++ '"' :: rest) =
      c :: (escStr l ++ '"' :: rest) from rfl]
    rw [parseStrAux_plain h1 h2, ih]
    simp

/-! ## Round-trip lemmas: values -/

theorem parseVal_str (fuel : Nat) (s : String) (rest : List Char) :
    parseVal (fuel + 1) (dumpV (.pyStr s) ++ rest) = some (.pyStr s, rest) := by
  rw [show dumpV (.pyStr s) ++ rest = '"' :: (escStr s.data ++ '"' :: rest) by
    simp [dumpV]]
  unfold parseVal
  rw [skipWs_cons (by decide)]
  dsimp only
  rw [if_neg (by decide), if_neg (by decide), if_neg (by decide), if_pos rfl]
  rw [parseStrAux_esc]
  simp [string_mk_data]

theorem parseVal_ws (fuel : Nat) {c : Char} (hc : isWsC c = true)
    (cs : List Char) : parseVal fuel (c :: cs) = parseVal fuel cs := by
  cases fuel with
  | zero => rfl
  | succ f =>
    unfold parseVal
    rw [skipWs_cons_ws hc]

theorem parseItems_ws (fuel : Nat) {c : Char} (hc : isWsC c = true)
    (cs : List Char) : parseItems fuel (c :: cs) = parseItems fuel cs := by
  cases fuel with
  | zero => rfl
  | succ f =>
    unfold parseItems
    rw [skipWs_cons_ws hc]

theorem parseEntries_ws (fuel : Nat) {c : Char} (hc : isWsC c = true)
    (cs : List Char) : parseEntries fuel (c :: cs) = parseEntries fuel cs := by
  cases fuel with
  | zero => rfl
  | succ f =>
    unfold parseEntries
    rw [skipWs_cons_ws hc]

/-- Head shape of every serialised well-formed value: a nonempty text whose
first character is not whitespace and not a closing or separating
character. -/
theorem dump_head (v : PyVal) (hwf : wfB v = true) :
    ∃ c cs, dumpV v = c :: cs ∧ isWsC c = false ∧ c ≠ ']' ∧ c ≠ ',' ∧
      c ≠ '\x7d' ∧ c ≠ ':' := by
  cases v with
  | pyNone => exact ⟨'n', _, rfl, by decide, by decide, by decide, by decide, by decide⟩
  | pyBool b =>
    cases b with
    | true => exact ⟨'t', _, rfl, by decide, by decide, by decide, by decide, by decide⟩
    | false => exact ⟨'f', _, rfl, by decide, by decide, by decide, by decide, by decide⟩
  | pyInt n =>
    show ∃ c cs, intChars n = c :: cs ∧ _
    unfold intChars
    by_cases hneg : n < 0
    · rw [if_pos hneg]
      exact ⟨'-', _, rfl, by decide, by decide, by decide, by decide, by decide⟩
    · rw [if_neg hneg]
      cases h : natToChars n.natAbs with
      | nil => exact absurd h (natToChars_ne_nil _)
      | cons c cs =>
        have hd : isDigitC c = true := natToChars_all_digits _ c (by rw [h]; simp)
        exact ⟨c, cs, rfl, isWsC_false_of_digit hd, digit_ne_rbrack hd,
          digit_ne_comma hd, digit_ne_rbrace hd, digit_ne_colon hd⟩
  | pyFloat lit =>
    simp only [wfB] at hwf
    unfold wfFloatLit at hwf
    show ∃ c cs, lit.data = c :: cs ∧ _
    cases hdata : lit.data with
    | nil => rw [hdata] at hwf; exact absurd hwf (by simp)
    | cons c cs =>
      rw [hdata] at hwf
      dsimp only at hwf
      by_cases hc : c = '-'
      · subst hc
        exact ⟨'-', cs, rfl, by decide, by decide, by decide, by decide, by decide⟩
      · rw [if_neg hc] at hwf
        have hd : isDigitC c = true := by
          obtain ⟨ds, fs, heq, hdne, _, hdd, _⟩ := wfFloatCore_decomp hwf
          cases ds with
          | nil => exact absurd rfl hdne
          | cons d ds' =>
            have : c = d := by
              rw [List.cons_append] at heq
              injection heq with h1 h2
            exact this ▸ hdd d (by simp)
        exact ⟨c, cs, rfl, isWsC_false_of_digit hd, digit_ne_rbrack hd,
          digit_ne_comma hd, digit_ne_rbrace hd, digit_ne_colon hd⟩
  | pyStr s => exact ⟨'"', _, rfl, by decide, by decide, by decide, by decide, by decide⟩
  | pyList xs => exact ⟨'[', _, rfl, by decide, by decide, by decide, by decide, by decide⟩
  | pyTuple xs => exact absurd hwf (by simp [wfB])
  | pyDict es => exact ⟨'\x7b', _, rfl, by decide, by decide, by decide, by decide, by decide⟩

theorem needV_pos (p : PyVal) : 1 ≤ needV p := by
  cases p <;> simp [needV]

theorem needItems_pos (xs : List PyVal) : 1 ≤ needItems xs := by
  match xs with
  | [] => rw [needItems]
  | [v] => rw [needItems]; omega
  | v :: w :: vs => rw [needItems]; omega

theorem needEntries_pos (es : List (String × PyVal)) : 1 ≤ needEntries es := by
  match es with
  | [] => rw [needEntries]
  | [e] => rw [needEntries]; omega
  | e :: f :: es => rw [needEntries]; omega

theorem dump_len_pos (v : PyVal) (hwf : wfB v = true) : 1 ≤ (dumpV v).length := by
  obtain ⟨c, cs, hc, -⟩ := dump_head v hwf
  rw [hc]
  simp

mutual

theorem needV_le : ∀ p : PyVal, wfB p = true → needV p ≤ (dumpV p).length
  | .pyNone, _ => by simp [needV, dumpV]
  | .pyBool true, _ => by simp [needV, dumpV]
  | .pyBool false, _ => by simp [needV, dumpV]
  | .pyInt n, _ => by
    have := natToChars_ne_nil n.natAbs
    simp only [needV, dumpV, intChars]
    split <;> cases h : natToChars n.natAbs <;> simp_all
  | .pyFloat lit, hwf => by
    have h1 : 1 ≤ (dumpV (.pyFloat lit)).length := dump_len_pos _ hwf
    simpa [needV] using h1
  | .pyStr s, _ => by simp [needV, dumpV]
  | .pyList xs, hwf => by
    have h := needItems_le xs (by simpa [wfB] using hwf)
    simp only [needV, dumpV, List.length_cons]
    omega
  | .pyTuple xs, hwf => absurd hwf (by simp [wfB])
  | .pyDict es, hwf => by
    have hes : wfEntries es = true := by
      simp only [wfB, Bool.and_eq_true] at hwf
      exact hwf.2
    have h := needEntries_le es hes
    simp only [needV, dumpV, List.length_cons]
    omega

theorem needItems_le : ∀ xs : List PyVal, wfItems xs = true →
    needItems xs ≤ (dumpItems xs).length
  | [], _ => by simp [needItems, dumpItems]
  | [v], hwf => by
    have hv : wfB v = true := by
      simp only [wfItems, Bool.and_eq_true] at hwf
      exact hwf.1
    have h1 := needV_le v hv
    have h2 := dump_len_pos v hv
    have hne : needItems [v] = 1 + needV v := by
      rw [needItems]
    have hde : (dumpItems [v]).length = (dumpV v).length + 1 := by
      rw [dumpItems]
      simp
    omega
  | v :: w :: vs, hwf => by
    have hv : wfB v = true := by
      simp only [wfItems, Bool.and_eq_true] at hwf
      exact hwf.1
    have hrest : wfItems (w :: vs) = true := by
      simp only [wfItems, Bool.and_eq_true] at hwf
      simp [wfItems, hwf.2.1, hwf.2.2]
    have h1 := needV_le v hv
    have h2 := needItems_le (w :: vs) hrest
    have h3 := dump_len_pos v hv
    have hne : needItems (v :: w :: vs) = 1 + needV v + needItems (w :: vs) := by
      rw [needItems]
    have hde : (dumpItems (v :: w :: vs)).length =
        (dumpV v).length + 2 + (dumpItems (w :: vs)).length := by
      rw [dumpItems]
      simp
      omega
    omega

theorem needEntries_le : ∀ es : List (String × PyVal), wfEntries es = true →
    needEntries es ≤ (dumpEntries es).length
  | [], _ => by simp [needEntries, dumpEntries]
  | [(k, v)], hwf => by
    have hv : wfB v = true := by
      simp only [wfEntries, Bool.and_eq_true] at hwf
      exact hwf.1
    have h1 := needV_le v hv
    have h2 := dump_len_pos v hv
    have hne : needEntries [(k, v)] = 1 + needV v := by
      rw [needEntries]
    have hde : (dumpEntries [(k, v)]).length =
        (escStr k.data).length + 4 + (dumpV v).length + 1 := by
      rw [dumpEntries]
      simp
      omega
    omega
  | (k, v) :: e :: es, hwf => by
    have hv : wfB v = true := by
      simp only [wfEntries, Bool.and_eq_true] at hwf
      exact hwf.1
    have hrest : wfEntries (e :: es) = true := by
      simp only [wfEntries, Bool.and_eq_true] at hwf
      simp [wfEntries, hwf.2.1, hwf.2.2]
    have h1 := needV_le v hv
    have h2 := needEntries_le (e :: es) hrest
    have h3 := dump_len_pos v hv
    have hne : needEntries ((k, v) :: e :: es) =
        1 + needV v + needEntries (e :: es) := by
      rw [needEntries]
    have hde : (dumpEntries ((k, v) :: e :: es)).length =
        (escStr k.data).length + 4 + (dumpV v).length + 2 +
          (dumpEntries (e :: es)).length := by
      rw [dumpEntries]
      simp
      omega
    omega
end

/-! ## Round-trip: rebuilding the dict and the master theorem -/

theorem dictSet_append {es : List (String × PyVal)} {k : String} (v : PyVal)
    (h : k ∉ es.map Prod.fst) : PyVal.dictSet es k v = es ++ [(k, v)] := by
  induction es with
  | nil => rfl
  | cons e es ih =>
    obtain ⟨k', v'⟩ := e
    simp only [List.map_cons, List.mem_cons] at h
    push_neg at h
    rw [PyVal.dictSet]
    rw [if_neg (fun he => h.1 he.symm)]
    rw [ih h.2]
    simp

theorem foldl_dictSet (es : List (String × PyVal)) :
    ∀ acc : List (String × PyVal),
      (acc.map Prod.fst ++ es.map Prod.fst).Nodup →
      es.foldl (fun a e => PyVal.dictSet a e.1 e.2) acc = acc ++ es := by
  induction es with
  | nil =>
    intro acc h
    simp
  | cons e es ih =>
    intro acc h
    obtain ⟨k, v⟩ := e
    simp only [List.map_cons] at h
    have hsplit := List.nodup_append.mp h
    have hk : k ∉ acc.map Prod.fst := fun hmem => (hsplit.2.2 hmem) (by simp)
    have h2 : ((acc ++ [(k, v)]).map Prod.fst ++ es.map Prod.fst).Nodup := by
      simpa [List.append_assoc] using h
    simp only [List.foldl_cons]
    rw [dictSet_append v hk, ih (acc ++ [(k, v)]) h2]
    simp

theorem parse_dump (f : Nat) :
    (∀ p rest, wfB p = true → needV p ≤ f → numSafe rest = true →
      parseVal f (dumpV p ++ rest) = some (p, rest)) ∧
    (∀ v vs rest, wfItems (v :: vs) = true → needItems (v :: vs) ≤ f →
      parseItems f (dumpItems (v :: vs) ++ rest) = some (v :: vs, rest)) ∧
    (∀ k w es rest, wfEntries ((k, w) :: es) = true →
      needEntries ((k, w) :: es) ≤ f →
      parseEntries f (dumpEntries ((k, w) :: es) ++ rest) =
        some ((k, w) :: es, rest)) := by
  induction f with
  | zero =>
    refine ⟨?_, ?_, ?_⟩
    · intro p rest _ hn _
      have := needV_pos p
      omega
    · intro v vs rest _ hn
      have := needItems_pos (v :: vs)
      omega
    · intro k w es rest _ hn
      have := needEntries_pos ((k, w) :: es)
      omega
  | succ f ih =>
    obtain ⟨ihV, ihI, ihE⟩ := ih
    refine ⟨?_, ?_, ?_⟩
    · intro p rest hwf hn hr
      match p with
      | .pyNone =>
        rw [show dumpV .pyNone ++ rest = 'n' :: 'u' :: 'l' :: 'l' :: rest from rfl]
        rfl
      | .pyBool true =>
        rw [show dumpV (.pyBool true) ++ rest = 't' :: 'r' :: 'u' :: 'e' :: rest from rfl]
        rfl
      | .pyBool false =>
        rw [show dumpV (.pyBool false) ++ rest =
          'f' :: 'a' :: 'l' :: 's' :: 'e' :: rest from rfl]
        rfl
      | .pyInt n =>
        rw [show dumpV (.pyInt n) = intChars n from rfl]
        exact parseVal_int f n hr
      | .pyFloat lit =>
        rw [show dumpV (.pyFloat lit) = lit.data from rfl]
        exact parseVal_float f (by simpa [wfB] using hwf) hr
      | .pyStr s => exact parseVal_str f s rest
      | .pyTuple xs => exact absurd hwf (by simp [wfB])
      | .pyList [] =>
        have h2 : needV (.pyList ([] : List PyVal)) = 2 := by
          rw [needV, needItems]
        obtain ⟨g, rfl⟩ : ∃ g, f = g + 1 := ⟨f - 1, by omega⟩
        rw [show dumpV (.pyList ([] : List PyVal)) ++ rest = '[' :: ']' :: rest from rfl]
        rfl
      | .pyList (v :: vs) =>
        have hneed : needItems (v :: vs) ≤ f := by
          have : needV (.pyList (v :: vs)) = 1 + needItems (v :: vs) := by
            rw [needV]
          omega
        rw [show dumpV (.pyList (v :: vs)) ++ rest =
          '[' :: (dumpItems (v :: vs) ++ rest) by simp [dumpV]]
        unfold parseVal
        rw [skipWs_cons (by decide)]
        dsimp only
        rw [if_neg (by decide), if_neg (by decide), if_neg (by decide),
          if_neg (by decide), if_neg (by decide), if_pos rfl]
        rw [ihI v vs rest (by simpa [wfB] using hwf) hneed]
      | .pyDict [] =>
        have h2 : needV (.pyDict ([] : List (String × PyVal))) = 2 := by
          rw [needV, needEntries]
        obtain ⟨g, rfl⟩ : ∃ g, f = g + 1 := ⟨f - 1, by omega⟩
        rw [show dumpV (.pyDict ([] : List (String × PyVal))) ++ rest =
          '\x7b' :: '\x7d' :: rest from rfl]
        rfl
      | .pyDict ((k, w) :: es) =>
        have hne : needEntries ((k, w) :: es) ≤ f := by
          have : needV (.pyDict ((k, w) :: es)) =
              1 + needEntries ((k, w) :: es) := by
            rw [needV]
          omega
        have hwfparts : ((((k, w) :: es).map Prod.fst).Nodup) ∧
            wfEntries ((k, w) :: es) = true := by
          have := hwf
          simp only [wfB, Bool.and_eq_true, decide_eq_true_eq] at this
          exact this
        rw [show dumpV (.pyDict ((k, w) :: es)) ++ rest =
          '\x7b' :: (dumpEntries ((k, w) :: es) ++ rest) by simp [dumpV]]
        unfold parseVal
        rw [skipWs_cons (by decide)]
        dsimp only
        rw [if_neg (by decide), if_neg (by decide), if_neg (by decide),
          if_neg (by decide), if_pos rfl]
        rw [ihE k w es rest hwfparts.2 hne]
        dsimp only
        rw [foldl_dictSet ((k, w) :: es) [] (by simpa using hwfparts.1)]
        rfl
    · intro v vs rest hwf hn
      have hv : wfB v = true := by
        rw [wfItems] at hwf
        exact (Bool.and_eq_true _ _ |>.mp hwf).1
      obtain ⟨c, cs, hc, hcws, hcrb, hcc, hcbr, hccl⟩ := dump_head v hv
      cases vs with
      | nil =>
        have hneedv : needV v ≤ f := by
          have : needItems [v] = 1 + needV v := by rw [needItems]
          omega
        rw [show dumpItems [v] ++ rest = dumpV v ++ (']' :: rest) by
          rw [dumpItems]; simp]
        unfold parseItems
        rw [hc, List.cons_append, skipWs_cons hcws]
        dsimp only
        rw [if_neg hcrb]
        rw [← List.cons_append, ← hc]
        rw [ihV v (']' :: rest) hv hneedv (by rfl)]
        dsimp only
        rw [skipWs_cons (by decide)]
        dsimp only
        rw [if_neg (by decide), if_pos rfl]
      | cons w vs' =>
        have hneedv : needV v ≤ f := by
          have : needItems (v :: w :: vs') =
              1 + needV v + needItems (w :: vs') := by rw [needItems]
          have := needItems_pos (w :: vs')
          omega
        have hneedrest : needItems (w :: vs') ≤ f := by
          have : needItems (v :: w :: vs') =
              1 + needV v + needItems (w :: vs') := by rw [needItems]
          have := needV_pos v
          omega
        have hwfrest : wfItems (w :: vs') = true := by
          rw [wfItems] at hwf
          exact (Bool.and_eq_true _ _ |>.mp hwf).2
        rw [show dumpItems (v :: w :: vs') ++ rest =
          dumpV v ++ (',' :: ' ' :: (dumpItems (w :: vs') ++ rest)) by
          rw [dumpItems]; simp]
        unfold parseItems
        rw [hc, List.cons_append, skipWs_cons hcws]
        dsimp only
        rw [if_neg hcrb]
        rw [← List.cons_append, ← hc]
        rw [ihV v _ hv hneedv (by rfl)]
        dsimp only
        rw [skipWs_cons (by decide)]
        dsimp only
        rw [if_pos rfl]
        rw [parseItems_ws f (by decide)]
        rw [ihI w vs' rest hwfrest hneedrest]
    · intro k w es rest hwf hn
      have hw : wfB w = true := by
        rw [wfEntries] at hwf
        exact (Bool.and_eq_true _ _ |>.mp hwf).1
      cases es with
      | nil =>
        have hneedw : needV w ≤ f := by
          have : needEntries [(k, w)] = 1 + needV w := by rw [needEntries]
          omega
        rw [show dumpEntries [(k, w)] ++ rest =
          '"' :: (escStr k.data ++ '"' :: (':' :: ' ' ::
            (dumpV w ++ ('\x7d' :: rest)))) by
          rw [dumpEntries]; simp]
        unfold parseEntries
        rw [skipWs_cons (by decide)]
        dsimp only
        rw [if_neg (by decide), if_pos rfl]
        rw [parseStrAux_esc]
        dsimp only
        rw [skipWs_cons (by decide)]
        dsimp only
        rw [if_pos rfl]
        rw [parseVal_ws f (by decide)]
        rw [ihV w ('\x7d' :: rest) hw hneedw (by rfl)]
        dsimp only
        rw [skipWs_cons (by decide)]
        dsimp only
        rw [if_neg (by decide), if_pos rfl]
        simp [string_mk_data]
      | cons e2 es' =>
        obtain ⟨k2, w2⟩ := e2
        have hneedw : needV w ≤ f := by
          have : needEntries ((k, w) :: (k2, w2) :: es') =
              1 + needV w + needEntries ((k2, w2) :: es') := by rw [needEntries]
          have := needEntries_pos ((k2, w2) :: es')
          omega
        have hneedrest : needEntries ((k2, w2) :: es') ≤ f := by
          have : needEntries ((k, w) :: (k2, w2) :: es') =
              1 + needV w + needEntries ((k2, w2) :: es') := by rw [needEntries]
          have := needV_pos w
          omega
        have hwfrest : wfEntries ((k2, w2) :: es') = true := by
          rw [wfEntries] at hwf
          exact (Bool.and_eq_true _ _ |>.mp hwf).2
        rw [show dumpEntries ((k, w) :: (k2, w2) :: es') ++ rest =
          '"' :: (escStr k.data ++ '"' :: (':' :: ' ' ::
            (dumpV w ++ (',' :: ' ' ::
              (dumpEntries ((k2, w2) :: es') ++ rest))))) by
          rw [dumpEntries]; simp]
        unfold parseEntries
        rw [skipWs_cons (by decide)]
        dsimp only
        rw [if_neg (by decide), if_pos rfl]
        rw [parseStrAux_esc]
        dsimp only
        rw [skipWs_cons (by decide)]
        dsimp only
        rw [if_pos rfl]
        rw [parseVal_ws f (by decide)]
        rw [ihV w _ hw hneedw (by rfl)]
        dsimp only
        rw [skipWs_cons (by decide)]
        dsimp only
        rw [if_pos rfl]
        rw [parseEntries_ws f (by decide)]
        rw [ihE k2 w2 es' rest hwfrest hneedrest]
        dsimp only
        simp [string_mk_data]

/-- The JSON round trip is exact on tuple-free well-formed payloads. -/
theorem jsonLoads_jsonDumps {p : PyVal} (h : wfB p = true) :
    jsonLoads (jsonDumps p) = some p := by
  unfold jsonLoads jsonDumps
  rw [show (String.mk (dumpV p)).data = dumpV p from rfl]
  have hb := needV_le p h
  have hmain := (parse_dump (2 * (dumpV p).length + 2)).1 p [] h (by omega) rfl
  rw [show dumpV p ++ ([] : List Char) = dumpV p by simp] at hmain
  rw [hmain]
  rfl

/-! ## Claim-level definitions -/

/-- Strictly increasing test on an identifier list. -/
def strictlyIncB : List Nat → Bool
  | [] => true
  | [_] => true
  | a :: b :: t => decide (a < b) && strictlyIncB (b :: t)

/-- The first n clock readings of the environment are real datetimes. -/
def validClock (env : Env) : Nat → Bool
  | 0 => true
  | n + 1 => validClock env n && (env.now n).validB

/-- All stored timestamps of the rows parse as ISO-8601. -/
def rowsTsParse (rows : List Row) : Bool := rows.all fun r => isoParseB r.ts

/-- Keys of a dict payload in insertion order. -/
def payloadKeys : PyVal → List String
  | .pyDict es => es.map Prod.fst
  | _ => []

/-- Key lists of all persisted payloads. -/
def rowsPayloadKeys (rows : List Row) : List (List String) :=
  rows.map fun r => payloadKeys r.payload

/-- The fixed key set of every mock payload after the debug marker. -/
def mockKeys : List String :=
  ["symbol", "ts", "ltp", "volume", "option_chain_ok", "note", "debug"]

/-- Every persisted payload carries the login_failed debug marker. -/
def rowsDebugLoginFailed (rows : List Row) : Bool :=
  rows.all fun r => pyGet r.payload "debug" == PyVal.pyStr "login_failed"

/-- Every persisted payload keeps its mock ltp field. -/
def rowsLtpPersisted (env : Env) (rows : List Row) : Bool :=
  rows.all fun r => pyGet r.payload "ltp" == PyVal.pyFloat (env.mockLtp r.symbol)

/-- The message the login-failed branch composes for one symbol: the mock
fallback payload has no chosen_ltp key and no option-chain probes, so the
non-mock message template prints None and False; the ltp value of the
fallback payload never appears. -/
def loginFailedMsg (sym ts : String) : String :=
  "Snapshot: " ++ sym ++ "\\n" ++ "Chosen LTP: " ++ "None" ++ "\\n" ++
    "OptionChain_ok: " ++ "False" ++ "\\n" ++
    "See logs/DB for full raw responses.\\n" ++ "Time: " ++ ts

/-- No price alias key occurs in any dict response. -/
def noAliasB (rs : List (String × PyVal)) : Bool :=
  rs.all fun mr =>
    match mr.2 with
    | .pyDict es => es.all fun e => !(priceKeys.contains e.1)
    | _ => true

/-- A concrete environment for witnesses: a fixed valid clock, a fixed
hash, a fixed mock price literal. -/
def testEnv : Env :=
  { now := fun _ => ⟨2024, 5, 17, 10, 0, 0, 123456⟩,
    hash := fun _ => 7,
    mockLtp := fun _ => "1234.56" }

/-- A concrete broker object exposing one working LTP method. -/
def testApi : Api :=
  { methods := ["ltp"],
    call := fun _ _ => .ok (.pyDict [("ltp", .pyInt 100)]) }

/-- CLI flags of a default one-shot run. -/
def oneShotArgs : Args :=
  { loop := false, one_shot := true, mock := false, debug := false }

/-- Credentials with the API key missing. -/
def credsMissing : Creds :=
  { api_key := none, client_code := some "C123", password := some "pw",
    totp_secret := none }

/-- Complete credentials. -/
def credsFull : Creds :=
  { api_key := some "K", client_code := some "C123", password := some "pw",
    totp_secret := none }

/-- The payload the non-mock cycle with testApi persists for its first
symbol: the chosen extraction site is recorded as a tuple. -/
def p9 : PyVal :=
  .pyDict [("symbol", .pyStr "NIFTY"),
           ("ltp_candidates", .pyDict [("ltp", .pyDict [("ltp", .pyInt 100)])]),
           ("option_chain_probes", .pyDict []),
           ("chosen_ltp", .pyInt 100),
           ("chosen_entry", .pyTuple [.pyStr "ltp", .pyStr "ltp"]),
           ("ts", .pyStr "2024-05-17T10:00:00.123456+00:00")]

/-- What reading p9 back from its stored JSON text yields: the tuple comes
back as a list. -/
def p9listed : PyVal :=
  .pyDict [("symbol", .pyStr "NIFTY"),
           ("ltp_candidates", .pyDict [("ltp", .pyDict [("ltp", .pyInt 100)])]),
           ("option_chain_probes", .pyDict []),
           ("chosen_ltp", .pyInt 100),
           ("chosen_entry", .pyList [.pyStr "ltp", .pyStr "ltp"]),
           ("ts", .pyStr "2024-05-17T10:00:00.123456+00:00")]

/-- A broker object exposing two LTP methods that both raise. -/
def raisingApi (e : String) : Api :=
  { methods := ["ltp", "get_ltp"], call := fun _ _ => .error e }

/-- A broker object exposing the first two LTP candidates and the first
two option-chain candidates, every call echoing the method name. -/
def twoMethodApi : Api :=
  { methods := ["ltp", "get_ltp", "option_chain", "get_option_chain"],
    call := fun m _ => .ok (.pyStr m) }

/-! ## Claims -/

/-- C1: one run of single_cycle inserts exactly one snapshot row per
configured symbol (the row symbols are exactly the configured list, which
has no duplicates), the auto-increment identifiers are strictly increasing
in insertion order, and every stored timestamp is a parseable ISO-8601
string whenever the clock readings are real datetimes. -/
theorem C1_one_snapshot_per_symbol (mock : Bool) (login : Except String Api)
    (env : Env) (hv : validClock env 8 = true) :
    (single_cycle mock login env init0).rows.map Row.symbol = SYMBOLS ∧
    SYMBOLS.Nodup ∧
    strictlyIncB ((single_cycle mock login env init0).rows.map Row.id) = true ∧
    rowsTsParse (single_cycle mock login env init0).rows = true := by
  simp only [validClock, Bool.and_eq_true] at hv
  obtain ⟨⟨⟨⟨⟨⟨⟨⟨-, h0⟩, h1⟩, h2⟩, h3⟩, h4⟩, h5⟩, h6⟩, h7⟩ := hv
  have e1 := isoParseB_isoformat _ h1
  have e3 := isoParseB_isoformat _ h3
  have e5 := isoParseB_isoformat _ h5
  have e7 := isoParseB_isoformat _ h7
  cases mock with
  | true =>
    refine ⟨?_, by decide, ?_, ?_⟩ <;>
      simp [single_cycle, init_db, SYMBOLS, processSymbol, save_snapshot,
        rowsTsParse, strictlyIncB, init0, e1, e3, e5, e7]
  | false =>
    rcases login with e | api <;>
      refine ⟨?_, by decide, ?_, ?_⟩ <;>
      simp [single_cycle, init_db, SYMBOLS, processSymbol, save_snapshot,
        rowsTsParse, strictlyIncB, init0, e1, e3, e5, e7]

theorem C1_witness :
    validClock testEnv 8 = true ∧
    ((single_cycle true (.error "") testEnv init0).rows.map Row.symbol = SYMBOLS ∧
     SYMBOLS.Nodup ∧
     strictlyIncB ((single_cycle true (.error "") testEnv init0).rows.map Row.id) = true ∧
     rowsTsParse (single_cycle true (.error "") testEnv init0).rows = true) :=
  ⟨by decide, C1_one_snapshot_per_symbol true (.error "") testEnv (by decide)⟩

/-- C2 counterexample: the claim says the computed next-run time is the
next :00:05 or :30:05 boundary after the current time. Started at
10:00:02, the code computes 10:30:05 although the boundary 10:00:05 lies
strictly between; and started at 23:45:00, the code computes 00:00:05 with
the calendar date unchanged, a time earlier than the current one. -/
theorem C2_scheduler_counterexample :
    next_run ⟨10, 0, 2, 0⟩ = ⟨10, 30, 5, 0⟩ ∧
    isBoundaryB ⟨10, 0, 5, 0⟩ = true ∧
    LocalTime.toMicros ⟨10, 0, 2, 0⟩ < LocalTime.toMicros ⟨10, 0, 5, 0⟩ ∧
    LocalTime.toMicros ⟨10, 0, 5, 0⟩ < LocalTime.toMicros ⟨10, 30, 5, 0⟩ ∧
    specNextBoundary ⟨10, 0, 2, 0⟩ = ⟨10, 0, 5, 0⟩ ∧
    next_run ⟨23, 45, 0, 0⟩ = ⟨0, 0, 5, 0⟩ ∧
    LocalTime.toMicros (next_run ⟨23, 45, 0, 0⟩) <
      LocalTime.toMicros ⟨23, 45, 0, 0⟩ ∧
    sleepUsed ⟨23, 45, 0, 0⟩ = 10 := by
  refine ⟨by decide, by decide, by decide, by decide, by decide, by decide,
    by decide, ?_⟩
  norm_num [sleepUsed, sleep_seconds, next_run, LocalTime.toMicros]

/-- C2 amended: the computed next-run value always lies on a minute-0 or
minute-30, second-5 time of day, and the sleep actually performed is never
below the 10 second floor; moreover, whenever the current time is at least
5 seconds past the most recent half-hour mark, the computed value is the
time of day of the next half-hour boundary (the calendar date, however, is
never advanced, as the counterexample shows at 23:45). -/
theorem C2_scheduler_amended (now : LocalTime) (hv : now.validB = true) :
    isBoundaryB (next_run now) = true ∧ (10 : ℚ) ≤ sleepUsed now ∧
    ((now.minute % 30 ≠ 0 ∨ 5 ≤ now.second) →
      next_run now = specNextBoundary now) := by
  simp only [LocalTime.validB, Bool.and_eq_true, decide_eq_true_eq] at hv
  obtain ⟨⟨⟨hh, hm⟩, hs⟩, hu⟩ := hv
  refine ⟨?_, le_max_left _ _, ?_⟩
  · unfold next_run isBoundaryB
    by_cases h30 : 60 ≤ now.minute / 30 * 30 + 30
    · rw [if_pos h30]
      simp
    · rw [if_neg h30]
      simp
      omega
  · intro hc
    unfold next_run specNextBoundary
    by_cases h30 : 60 ≤ now.minute / 30 * 30 + 30
    · rw [if_pos h30]
      rw [if_neg (show ¬((decide (now.minute = 0) &&
          decide (now.second < 5)) = true) by
        simp only [Bool.and_eq_true, decide_eq_true_eq]
        omega)]
      rw [if_neg (show ¬(now.minute < 30) by omega)]
      rw [if_neg (show ¬((decide (now.minute = 30) &&
          decide (now.second < 5)) = true) by
        simp only [Bool.and_eq_true, decide_eq_true_eq]
        rcases hc with hc | hc <;> omega)]
    · rw [if_neg h30]
      rw [if_neg (show ¬((decide (now.minute = 0) &&
          decide (now.second < 5)) = true) by
        simp only [Bool.and_eq_true, decide_eq_true_eq]
        rcases hc with hc | hc <;> omega)]
      rw [if_pos (show now.minute < 30 by omega)]
      have hmin : now.minute / 30 * 30 + 30 = 30 := by omega
      rw [hmin]

theorem C2_witness :
    (LocalTime.mk 10 7 0 0).validB = true ∧ (10 % 30 ≠ 0 ∨ 5 ≤ 0) ∧
    isBoundaryB (next_run ⟨10, 7, 0, 0⟩) = true ∧
    (10 : ℚ) ≤ sleepUsed ⟨10, 7, 0, 0⟩ ∧
    next_run ⟨10, 7, 0, 0⟩ = specNextBoundary ⟨10, 7, 0, 0⟩ :=
  ⟨by decide, Or.inl (by decide),
    (C2_scheduler_amended ⟨10, 7, 0, 0⟩ (by decide)).1,
    (C2_scheduler_amended ⟨10, 7, 0, 0⟩ (by decide)).2.1,
    (C2_scheduler_amended ⟨10, 7, 0, 0⟩ (by decide)).2.2 (Or.inl (by decide))⟩

theorem lookup_none_of_no_key {es : List (String × PyVal)} {k : String}
    (h : ∀ e ∈ es, e.1 ≠ k) : PyVal.lookup es k = none := by
  induction es with
  | nil => rfl
  | cons e rest ih =>
    obtain ⟨k', v⟩ := e
    rw [PyVal.lookup]
    rw [if_neg (h (k', v) (by simp))]
    exact ih fun e he => h e (by simp [he])

theorem priceKeyHit_none {es : List (String × PyVal)}
    (h : (es.all fun e => !(priceKeys.contains e.1)) = true) :
    priceKeyHit es = none := by
  rw [priceKeyHit, List.findSome?_eq_none_iff]
  intro k hk
  rw [lookup_none_of_no_key]
  intro e he hek
  have hmem := List.all_eq_true.mp h e he
  simp at hmem
  exact hmem (hek ▸ hk)

theorem noAliasB_tail {mr : String × PyVal} {rest : List (String × PyVal)}
    (h : noAliasB (mr :: rest) = true) : noAliasB rest = true := by
  simp only [noAliasB, List.all_cons, Bool.and_eq_true] at h
  exact h.2

theorem aliasScan_none : ∀ rs : List (String × PyVal), noAliasB rs = true →
    aliasScan rs = none
  | [], _ => rfl
  | (m, .pyNone) :: rest, h => aliasScan_none rest (noAliasB_tail h)
  | (m, .pyBool b) :: rest, h => aliasScan_none rest (noAliasB_tail h)
  | (m, .pyInt n) :: rest, h => aliasScan_none rest (noAliasB_tail h)
  | (m, .pyFloat l) :: rest, h => aliasScan_none rest (noAliasB_tail h)
  | (m, .pyStr s) :: rest, h => aliasScan_none rest (noAliasB_tail h)
  | (m, .pyList xs) :: rest, h => aliasScan_none rest (noAliasB_tail h)
  | (m, .pyTuple xs) :: rest, h => aliasScan_none rest (noAliasB_tail h)
  | (m, .pyDict es) :: rest, h => by
    have h1 : (es.all fun e => !(priceKeys.contains e.1)) = true := by
      simp only [noAliasB, List.all_cons, Bool.and_eq_true] at h
      exact h.1
    show (match priceKeyHit es with
      | some (k, v) => some (v, m, k)
      | none => aliasScan rest) = none
    rw [priceKeyHit_none h1]
    exact aliasScan_none rest (noAliasB_tail h)

/-! ## The fallback pattern never matches serialised text -/

theorem groupTry_shape :
    ∀ (n : Nat) (rest g : List Char), groupTry rest n = some g →
      ∃ r, rest = '\\' :: 'd' :: r := by
  intro n
  induction n with
  | zero => intro rest g h; simp [groupTry] at h
  | succ k ih =>
    intro rest g h
    rw [groupTry.eq_def] at h
    dsimp only at h
    split at h
    · rename_i r1
      split at h
      · rename_i hlen
        split at h
        · have h2 : k + 1 ≤ (leadDs r1).length := by
            rw [List.length_take] at hlen; omega
          cases r1 with
          | nil => simp [leadDs] at h2
          | cons d r =>
            by_cases hd : d = 'd'
            · exact ⟨r, by rw [hd]⟩
            · exfalso
              have h0 : leadDs (d :: r) = [] := by
                unfold leadDs
                rw [List.takeWhile_cons]
                simp [hd]
              rw [h0] at h2
              simp at h2
        · exact ih _ _ h
      · exact ih _ _ h
    · simp at h

theorem bbMatchAt_shape (cs g : List Char) (h : bbMatchAt cs = some g) :
    ∃ r, cs = '\\' :: 'b' :: '\\' :: 'd' :: r := by
  rw [bbMatchAt.eq_def] at h
  split at h
  · rename_i rest
    obtain ⟨r, hr⟩ := groupTry_shape 7 rest g h
    exact ⟨r, by rw [hr]⟩
  · simp at h

theorem bbSearch_bad4 :
    ∀ (cs g : List Char), bbSearch cs = some g →
      ∃ a r, cs = a ++ '\\' :: 'b' :: '\\' :: 'd' :: r := by
  intro cs
  induction cs with
  | nil => intro g h; simp [bbSearch] at h
  | cons c cs ih =>
    intro g h
    rw [bbSearch] at h
    cases hm : bbMatchAt (c :: cs) with
    | some g2 =>
      obtain ⟨r, hr⟩ := bbMatchAt_shape _ _ hm
      exact ⟨[], r, hr⟩
    | none =>
      rw [hm] at h
      obtain ⟨a, r, hr⟩ := ih g h
      exact ⟨c :: a, r, by rw [hr, List.cons_append]⟩

theorem escT_no_bad4 :
    ∀ {cs : List Char}, EscT cs →
      ∀ a r, cs ≠ a ++ '\\' :: 'b' :: '\\' :: 'd' :: r := by
  intro cs h
  induction h with
  | nil => intro a r he; cases a <;> simp at he
  | plain hc ht ih =>
    rename_i c cs2
    intro a r he
    cases a with
    | nil =>
      simp only [List.nil_append, List.cons.injEq] at he
      exact hc he.1
    | cons x a2 =>
      simp only [List.cons_append, List.cons.injEq] at he
      exact ih a2 r he.2
  | esc hm ht ih =>
    rename_i c cs2
    intro a r he
    cases a with
    | nil =>
      simp only [List.nil_append, List.cons.injEq, true_and] at he
      rw [he.2] at ht
      cases ht with
      | plain hc2 ht2 => exact hc2 rfl
      | esc hm2 ht2 => exact absurd hm2 (by decide)
    | cons x a2 =>
      cases a2 with
      | nil =>
        simp only [List.cons_append, List.nil_append, List.cons.injEq] at he
        rw [he.2.2] at ht
        cases ht with
        | plain hc3 ht3 =>
          cases ht3 with
          | plain hc4 ht4 => exact hc4 rfl
          | esc hm4 ht4 => exact absurd hm4 (by decide)
      | cons y a3 =>
        simp only [List.cons_append, List.cons.injEq] at he
        exact ih a3 r he.2.2

theorem escT_append : ∀ {a b : List Char}, EscT a → EscT b → EscT (a ++ b)
  | _, _, .nil, hb => hb
  | _, _, .plain hc ht, hb => .plain hc (escT_append ht hb)
  | _, _, .esc hm ht, hb => .esc hm (escT_append ht hb)

theorem escT_of_noBS : ∀ {cs : List Char}, (∀ c ∈ cs, c ≠ '\\') → EscT cs
  | [], _ => .nil
  | c :: cs, h =>
    .plain (h c (List.mem_cons_self c cs))
      (escT_of_noBS fun d hd => h d (List.mem_cons_of_mem c hd))

theorem hexCh_ne_bs (n : Nat) : hexCh n ≠ '\\' := by
  unfold hexCh
  split <;> decide

theorem escT_escChar {rest : List Char} (c : Char) (h : EscT rest) :
    EscT (escChar c ++ rest) := by
  unfold escChar
  split_ifs with h1 h2 h3 h4 h5 h6 h7 h8
  · exact .esc (by decide) h
  · exact .esc (by decide) h
  · exact .esc (by decide) h
  · exact .esc (by decide) h
  · exact .esc (by decide) h
  · exact .esc (by decide) h
  · exact .esc (by decide) h
  · exact .esc (by decide) (.plain (by decide) (.plain (by decide)
      (.plain (hexCh_ne_bs _) (.plain (hexCh_ne_bs _) h))))
  · exact .plain h2 h

theorem escT_escStr : ∀ cs : List Char, EscT (escStr cs)
  | [] => .nil
  | c :: cs => escT_escChar c (escT_escStr cs)

theorem escT_intChars (n : Int) : EscT (intChars n) := by
  refine escT_of_noBS ?_
  intro c hc
  have hdig : isDigitC c = true ∨ c = '-' := by
    unfold intChars at hc
    by_cases hneg : n < 0
    · rw [if_pos hneg] at hc
      rcases List.mem_cons.mp hc with h1 | h1
      · exact Or.inr h1
      · exact Or.inl (natToChars_all_digits _ c h1)
    · rw [if_neg hneg] at hc
      exact Or.inl (natToChars_all_digits _ c hc)
  rcases hdig with h1 | h1
  · intro hbs
    rw [hbs] at h1
    exact absurd h1 (by decide)
  · rw [h1]; decide

mutual

theorem escT_dumpV : ∀ v : PyVal, escSafeB v = true → EscT (dumpV v)
  | .pyNone, _ => by rw [dumpV]; exact escT_of_noBS (by decide)
  | .pyBool true, _ => by rw [dumpV]; exact escT_of_noBS (by decide)
  | .pyBool false, _ => by rw [dumpV]; exact escT_of_noBS (by decide)
  | .pyInt n, _ => by rw [dumpV]; exact escT_intChars n
  | .pyFloat lit, h => by
      rw [dumpV]
      refine escT_of_noBS ?_
      simp only [escSafeB, noBackslashB, List.all_eq_true,
        decide_eq_true_eq] at h
      exact h
  | .pyStr s, _ => by
      rw [dumpV]
      exact escT_append (.plain (by decide) (escT_escStr s.data))
        (.plain (by decide) .nil)
  | .pyList xs, h => by
      rw [dumpV]
      exact .plain (by decide) (escT_dumpItems xs (by
        simpa only [escSafeB] using h))
  | .pyTuple xs, h => by
      rw [dumpV]
      exact .plain (by decide) (escT_dumpItems xs (by
        simpa only [escSafeB] using h))
  | .pyDict es, h => by
      rw [dumpV]
      exact .plain (by decide) (escT_dumpEntries es (by
        simpa only [escSafeB] using h))

theorem escT_dumpItems : ∀ xs : List PyVal, escSafeItems xs = true →
    EscT (dumpItems xs)
  | [], _ => by rw [dumpItems]; exact .plain (by decide) .nil
  | [v], h => by
      rw [dumpItems]
      have hv : escSafeB v = true := by
        simp only [escSafeItems, Bool.and_eq_true] at h
        exact h.1
      exact escT_append (escT_dumpV v hv) (.plain (by decide) .nil)
  | v :: w :: vs, h => by
      rw [dumpItems]
      have hv : escSafeB v = true ∧ escSafeItems (w :: vs) = true := by
        simpa only [escSafeItems, Bool.and_eq_true] using h
      exact escT_append (escT_dumpV v hv.1) (.plain (by decide)
        (.plain (by decide) (escT_dumpItems (w :: vs) hv.2)))

theorem escT_dumpEntries : ∀ es : List (String × PyVal),
    escSafeEntries es = true → EscT (dumpEntries es)
  | [], _ => by rw [dumpEntries]; exact .plain (by decide) .nil
  | [(k, v)], h => by
      rw [dumpEntries]
      have hv : escSafeB v = true := by
        simp only [escSafeEntries, Bool.and_eq_true] at h
        exact h.1
      exact escT_append (escT_append
        (.plain (by decide) (escT_escStr k.data))
        (.plain (by decide) (.plain (by decide) (.plain (by decide)
          (escT_dumpV v hv))))) (.plain (by decide) .nil)
  | (k, v) :: e :: es, h => by
      rw [dumpEntries]
      have hv : escSafeB v = true ∧ escSafeEntries (e :: es) = true := by
        simpa only [escSafeEntries, Bool.and_eq_true] using h
      exact escT_append (escT_append
        (.plain (by decide) (escT_escStr k.data))
        (.plain (by decide) (.plain (by decide) (.plain (by decide)
          (escT_dumpV v hv.1))))) (.plain (by decide)
        (.plain (by decide) (escT_dumpEntries (e :: es) hv.2)))

end

theorem string_append_data (a b : String) :
    (a ++ b).data = a.data ++ b.data := rfl

theorem string_data_mk (cs : List Char) : (String.mk cs).data = cs := rfl

theorem bad4_in_left :
    ∀ (a p r s : List Char), (∀ c ∈ s, c ≠ '\\') → s.head? ≠ some 'd' →
      p ++ s = a ++ '\\' :: 'b' :: '\\' :: 'd' :: r →
      ∃ r2, p = a ++ '\\' :: 'b' :: '\\' :: 'd' :: r2 := by
  intro a
  induction a with
  | nil =>
    intro p r s hs hd he
    cases p with
    | nil =>
      simp only [List.nil_append] at he
      exact absurd rfl (hs '\\' (by rw [he]; exact List.mem_cons_self _ _))
    | cons x p1 =>
      cases p1 with
      | nil =>
        simp only [List.cons_append, List.nil_append, List.cons.injEq] at he
        exact absurd rfl (hs '\\' (by rw [he.2]; simp))
      | cons y p2 =>
        cases p2 with
        | nil =>
          simp only [List.cons_append, List.nil_append,
            List.cons.injEq] at he
          exact absurd rfl
            (hs '\\' (by rw [he.2.2]; exact List.mem_cons_self _ _))
        | cons z p3 =>
          cases p3 with
          | nil =>
            simp only [List.cons_append, List.nil_append,
              List.cons.injEq] at he
            exact absurd (by rw [he.2.2.2]; rfl) hd
          | cons w p4 =>
            simp only [List.cons_append, List.nil_append,
              List.cons.injEq] at he
            exact ⟨p4, by
              rw [List.nil_append, he.1, he.2.1, he.2.2.1, he.2.2.2.1]⟩
  | cons x a1 ih =>
    intro p r s hs hd he
    cases p with
    | nil =>
      simp only [List.nil_append, List.cons_append] at he
      refine absurd rfl (hs '\\' ?_)
      rw [he]
      simp
    | cons y p1 =>
      simp only [List.cons_append, List.cons.injEq] at he
      obtain ⟨r2, hp⟩ := ih p1 r s hs hd he.2
      exact ⟨r2, by rw [List.cons_append, he.1, hp]⟩

theorem dumpV_no_bad4 (v : PyVal) (h : escSafeB v = true) (a r : List Char) :
    dumpV v ≠ a ++ '\\' :: 'b' :: '\\' :: 'd' :: r :=
  escT_no_bad4 (escT_dumpV v h) a r

theorem bbSearch_truncate_none (v : PyVal) (hv : escSafeB v = true)
    (n : Nat) : bbSearch (truncate v n).data = none := by
  cases hs : bbSearch (truncate v n).data with
  | none => rfl
  | some g =>
    exfalso
    obtain ⟨a, r, he⟩ := bbSearch_bad4 _ _ hs
    simp only [truncate] at he
    by_cases hlen : n < (jsonDumps v).data.length
    · rw [if_pos hlen, string_append_data, string_data_mk] at he
      have hsf : ∀ c ∈ ("...(truncated)" : String).data, c ≠ '\\' := by
        decide
      have hdd : ("...(truncated)" : String).data.head? ≠ some 'd' := by
        decide
      obtain ⟨r2, hp⟩ :=
        bad4_in_left a ((jsonDumps v).data.take n) r _ hsf hdd he
      have hw : dumpV v = a ++ '\\' :: 'b' :: '\\' :: 'd' ::
          (r2 ++ (jsonDumps v).data.drop n) := by
        have hj : (jsonDumps v).data = dumpV v := string_data_mk _
        rw [← hj]
        conv_lhs => rw [← List.take_append_drop n (jsonDumps v).data]
        rw [hp]
        simp [List.append_assoc]
      exact dumpV_no_bad4 v hv a _ hw
    · rw [if_neg hlen] at he
      have hj : (jsonDumps v).data = dumpV v := string_data_mk _
      rw [hj] at he
      exact dumpV_no_bad4 v hv a r he

theorem regexScan_none : ∀ rs : List (String × PyVal),
    escSafeEntries rs = true → regexScan rs = none
  | [], _ => rfl
  | (m, res) :: rest, h => by
    have hps : escSafeB res = true ∧ escSafeEntries rest = true := by
      simpa only [escSafeEntries, Bool.and_eq_true] using h
    show (match bbSearch (truncate res 500).data with
      | some g => some (PyVal.pyFloat (String.mk g), m, "regex-extracted")
      | none => regexScan rest) = none
    rw [bbSearch_truncate_none res hps.1 500]
    exact regexScan_none rest hps.2

/-- C3: the price-extraction step reports the price using only the fixed
priority list of key aliases, and when no alias key is present in any
response the chosen price is reported as absent (None), not guessed by any
other means. The naive regex fallback in the code is dead: its raw-string
pattern doubles every backslash, so it looks for literal backslash-b and
backslash-d character runs, which the serialised text it scans can never
contain -- every backslash json.dumps emits starts an escape sequence. The
responses only need backslash-free float literals (escSafeB), which the
printed representation of a Python float always satisfies. -/
theorem C3_extraction_alias_only (rs : List (String × PyVal))
    (hs : escSafeEntries rs = true) :
    chooseLtp rs = aliasScan rs ∧
    (noAliasB rs = true → chooseLtp rs = none) := by
  have hr : regexScan rs = none := regexScan_none rs hs
  constructor
  · unfold chooseLtp
    cases ha : aliasScan rs with
    | some c => rfl
    | none => rw [hr]
  · intro hna
    unfold chooseLtp
    rw [aliasScan_none rs hna, hr]

theorem C3_alias_only_witness :
    escSafeEntries [("ltp", PyVal.pyStr "LTP is 123.45")] = true ∧
    noAliasB [("ltp", PyVal.pyStr "LTP is 123.45")] = true ∧
    chooseLtp [("ltp", PyVal.pyStr "LTP is 123.45")] =
      aliasScan [("ltp", PyVal.pyStr "LTP is 123.45")] ∧
    chooseLtp [("ltp", PyVal.pyStr "LTP is 123.45")] = none :=
  ⟨by decide, by decide,
    (C3_extraction_alias_only _ (by decide)).1,
    (C3_extraction_alias_only _ (by decide)).2 (by decide)⟩

theorem probeAll_eq (api : Api) (args : List PyVal) :
    ∀ ms : List String, probeAll api args ms =
      (ms.filter api.hasMethod).map
        (fun m => (m, safe_call_and_log (api.call m args)))
  | [] => rfl
  | m :: ms => by
    rw [probeAll, List.filter_cons]
    by_cases h : api.hasMethod m
    · rw [if_pos h, if_pos h, List.map_cons, probeAll_eq api args ms]
    · rw [if_neg h, if_neg h, probeAll_eq api args ms]

/-- C4 counterexample: on a broker object exposing both the first and the
second LTP candidate and both of the first two option-chain candidates,
each fetch operation invokes every exposed candidate and records every
result, not only the first existing one. -/
theorem C4_probe_counterexample :
    (fetch_ltp_by_method twoMethodApi "NIFTY").map Prod.fst =
      ["ltp", "get_ltp"] ∧
    (fetch_option_chain_probes twoMethodApi "NIFTY").map Prod.fst =
      ["option_chain", "get_option_chain"] ∧
    (["ltp", "get_ltp"] : List String) ≠ ["ltp"] ∧
    (["option_chain", "get_option_chain"] : List String) ≠ ["option_chain"] := by
  refine ⟨by decide, by decide, by decide, by decide⟩

/-- C4 amended: each fetch operation probes its fixed ordered candidate
lists and invokes every candidate that exists on the object, recording each
invoked method name with the safe-call result of calling it (the LTP probes
and the option-chain probes receive the symbol, the instrument-master
probes receive no argument). -/
theorem C4_probe_all_existing (api : Api) (sym : String) :
    fetch_ltp_by_method api sym =
      ((ltpCandidates.filter api.hasMethod ++
        quoteCandidates.filter api.hasMethod).map
          (fun m => (m, safe_call_and_log (api.call m [.pyStr sym])))) ∧
    fetch_option_chain_probes api sym =
      ((ocProbes.filter api.hasMethod).map
          (fun m => (m, safe_call_and_log (api.call m [.pyStr sym]))) ++
        (instProbes.filter api.hasMethod).map
          (fun m => (m, safe_call_and_log (api.call m [])))) := by
  constructor
  · unfold fetch_ltp_by_method
    rw [probeAll_eq, probeAll_eq, List.map_append]
  · unfold fetch_option_chain_probes
    rw [probeAll_eq, probeAll_eq]

/-- C5 counterexample: with the broker client available but the API key
credential missing, in non-mock one-shot mode, login raises, the exception
is caught inside the cycle, the cycle still runs over all four symbols with
login-failed fallback payloads, and the process exits with code 0 -- it
does not exit with a distinct non-zero code before any cycle. -/
theorem C5_exit_counterexample :
    login_smartapi true credsMissing (.ok testApi) = .error
      "ANGEL_API_KEY, ANGEL_CLIENT_CODE or ANGEL_PASSWORD missing in environment." ∧
    (mainRun oneShotArgs true credsMissing (.ok testApi) testEnv false).map
      MainResult.exitCode = some 0 ∧
    (mainRun oneShotArgs true credsMissing (.ok testApi) testEnv false).map
      MainResult.ranCycle = some true ∧
    (((mainRun oneShotArgs true credsMissing (.ok testApi) testEnv false).bind
      MainResult.final).map CycleState.rows).map List.length = some 4 ∧
    ((mainRun oneShotArgs true credsMissing (.ok testApi) testEnv false).bind
      MainResult.final).map (rowsDebugLoginFailed ∘ CycleState.rows) =
      some true := by
  refine ⟨rfl, by decide, by decide, by decide, by decide⟩

/-- C5 amended: only the missing broker client library (without mock mode)
terminates the process before any cycle, with the distinct exit code 3. A
missing credential does not terminate the process: the login exception is
caught inside the cycle, which runs with login-failed fallback payloads,
and a completed one-shot run exits 0; an interrupted run also exits 0. -/
theorem C5_exit_codes (args : Args) (avail : Bool) (creds : Creds)
    (outcome : Except String Api) (env : Env) :
    (args.mock = false → avail = false →
      mainRun args avail creds outcome env false =
        some { exitCode := 3, ranCycle := false, final := none }) ∧
    ((args.mock = true ∨ avail = true) → args.loop = false →
      (mainRun args avail creds outcome env false).map MainResult.exitCode =
        some 0 ∧
      (mainRun args avail creds outcome env false).map MainResult.ranCycle =
        some true) ∧
    ((args.mock = true ∨ avail = true) →
      (mainRun args avail creds outcome env true).map MainResult.exitCode =
        some 0) := by
  refine ⟨?_, ?_, ?_⟩
  · intro hm ha
    simp [mainRun, hm, ha]
  · intro hma hl
    rcases hma with hma | hma <;> simp [mainRun, hma, hl]
  · intro hma
    rcases hma with hma | hma <;> simp [mainRun, hma]

theorem C5_witness :
    mainRun oneShotArgs false credsFull (.ok testApi) testEnv false =
      some { exitCode := 3, ranCycle := false, final := none } ∧
    (mainRun oneShotArgs true credsFull (.ok testApi) testEnv false).map
      MainResult.exitCode = some 0 ∧
    (mainRun oneShotArgs true credsFull (.ok testApi) testEnv false).map
      MainResult.ranCycle = some true ∧
    (mainRun oneShotArgs true credsFull (.ok testApi) testEnv true).map
      MainResult.exitCode = some 0 :=
  ⟨(C5_exit_codes oneShotArgs false credsFull (.ok testApi) testEnv).1 rfl rfl,
    ((C5_exit_codes oneShotArgs true credsFull (.ok testApi) testEnv).2.1
      (Or.inr rfl) rfl).1,
    ((C5_exit_codes oneShotArgs true credsFull (.ok testApi) testEnv).2.1
      (Or.inr rfl) rfl).2,
    (C5_exit_codes oneShotArgs true credsFull (.ok testApi) testEnv).2.2
      (Or.inr rfl)⟩

/-- C6: a raising call wrapped by the safe-call helper yields a result dict
holding the error text under the stable key "error" instead of propagating
the exception; a probing loop records that dict for each raising method and
moves on to the remaining candidates; and a cycle keeps processing after
any failure: whatever the login outcome, every configured symbol still gets
one persisted row and one message. -/
theorem C6_safe_call_error_dict (e : String) (login : Except String Api)
    (env : Env) :
    safe_call_and_log (.error e) = .pyDict [("error", .pyStr e)] ∧
    fetch_ltp_by_method (raisingApi e) "NIFTY" =
      [("ltp", .pyDict [("error", .pyStr e)]),
       ("get_ltp", .pyDict [("error", .pyStr e)])] ∧
    (single_cycle false login env init0).rows.map Row.symbol = SYMBOLS ∧
    (single_cycle false login env init0).msgs.length = SYMBOLS.length := by
  refine ⟨rfl, rfl, ?_, ?_⟩ <;> cases login <;> rfl

/-- C7: when the login raises in a non-mock cycle, no broker-backed fetch
call is made for that cycle (the recorded broker call trace stays empty),
every configured symbol instead receives a fallback mock payload marked
debug="login_failed", and the cycle still persists one row and composes one
message per symbol, with no crash (the modelled cycle is total). -/
theorem C7_login_failure_fallback (e : String) (env : Env) :
    (single_cycle false (.error e) env init0).calls = [] ∧
    (single_cycle false (.error e) env init0).rows.map Row.symbol = SYMBOLS ∧
    (single_cycle false (.error e) env init0).msgs.length = SYMBOLS.length ∧
    rowsDebugLoginFailed (single_cycle false (.error e) env init0).rows =
      true := by
  refine ⟨rfl, rfl, rfl, rfl⟩

/-- C8: with mock mode enabled, a cycle never attempts a broker call: the
login attempt flag stays off and the recorded broker call trace stays
empty whatever the would-be login outcome; and every configured symbol
yields a placeholder payload with the same fixed key list (symbol, ts,
ltp, volume, option_chain_ok, note, debug), so payloads differ across
symbols and runs only in their values. -/
theorem C8_mock_no_broker_calls (login : Except String Api) (env : Env) :
    (single_cycle true login env init0).loginTried = false ∧
    (single_cycle true login env init0).calls = [] ∧
    rowsPayloadKeys (single_cycle true login env init0).rows =
      List.replicate SYMBOLS.length mockKeys := by
  refine ⟨rfl, rfl, rfl⟩

/-- C9 counterexample: the snapshot append operation accepts payloads
containing tuples -- the non-mock cycle itself persists one (chosen_entry)
for every symbol whose price extraction succeeds -- and such a payload does
not read back structurally equal: its stored JSON text deserializes with
the tuple turned into a list. -/
theorem C9_roundtrip_counterexample :
    ((single_cycle false (.ok testApi) testEnv init0).rows.head?.map
      Row.payload) = some p9 ∧
    jsonLoads (jsonDumps p9) = some p9listed ∧
    p9listed ≠ p9 := by
  refine ⟨by decide, ?_, by decide⟩
  have hd : jsonDumps p9 = jsonDumps p9listed := by
    simp only [p9, p9listed, jsonDumps, dumpV, dumpEntries, dumpItems]
  rw [hd]
  exact jsonLoads_jsonDumps (by decide)

/-- C9 amended: for every tuple-free payload (checked by wfB; every payload
built only from dicts with distinct keys, lists, strings, numbers, booleans
and None qualifies), appending it to the snapshot log and reading the
appended row back by symbol yields, after JSON deserialization of the
stored payload text, a value structurally equal to the payload passed to
append. -/
theorem C9_roundtrip_amended (env : Env) (sym : String) (p : PyVal)
    (st : CycleState) (h : wfB p = true) :
    ((save_snapshot env sym p st).rows.getLast?.map
      (fun r => (r.symbol, jsonLoads r.payloadText))) = some (sym, some p) := by
  simp [save_snapshot, List.getLast?_concat, jsonLoads_jsonDumps h]

theorem C9_witness :
    ((save_snapshot testEnv "NIFTY" (.pyDict [("ltp", .pyInt 100)])
      init0).rows.getLast?.map
      (fun r => (r.symbol, jsonLoads r.payloadText))) =
      some ("NIFTY", some (.pyDict [("ltp", .pyInt 100)])) :=
  C9_roundtrip_amended testEnv "NIFTY" (.pyDict [("ltp", .pyInt 100)]) init0
    (by decide)

/-- C10: when the login raises in a non-mock cycle, the message composed
for each symbol follows the non-mock template and reports the chosen LTP as
None (and OptionChain_ok as False), because the fallback mock payload has
no chosen_ltp key; the fallback payload ltp value never appears in any
message, yet it is persisted in every snapshot row. -/
theorem C10_login_failed_message_none (e : String) (env : Env) :
    (single_cycle false (.error e) env init0).msgs =
      [loginFailedMsg "NIFTY" (isoformat (env.now 0)),
       loginFailedMsg "SENSEX" (isoformat (env.now 2)),
       loginFailedMsg "RELIANCE" (isoformat (env.now 4)),
       loginFailedMsg "HDFCBANK" (isoformat (env.now 6))] ∧
    rowsLtpPersisted env (single_cycle false (.error e) env init0).rows =
      true := by
  refine ⟨rfl, ?_⟩
  simp [rowsLtpPersisted, single_cycle, SYMBOLS, processSymbol, save_snapshot,
    mockEntries, pyGet, PyVal.dictSet, PyVal.lookup, init_db, init0]
